import Mathlib

/-!
Verification development for the `lisprs` interpreter (a small Lisp in Rust).

The Rust sources are shallowly embedded below:
  * `src/values.rs`   — `Value`, `LispProc`, `Value::new`, `to_string`, `serialize`,
                        `to_bool`, `get_type`, `PartialEq`, `PartialOrd`, `LispProc::call`
  * `src/env.rs`      — `Env` (vars map + optional parent), `get`/`define`/`undefine`
  * `src/parser.rs`   — `Token`, `tokenize`, `Value::from_tokens`, `Value::atomize`
  * `src/errors.rs`   — `ParseError`, `RunError`
  * `src/arithmetic.rs` — the `Add/Sub/Mul/Div/Rem` impls on `Value`
  * `src/builtins.rs` — the builtin registry and every builtin
  * `src/eval.rs`     — `eval`, `resolve_symbol`, `run_proc`, `eval_list`

Modelling conventions, stated once:
  * Rust `i64` is embedded as `Int` with release-profile two's-complement wrapping
    (`wrap64`) on `+ - *`; `/` and `%` panic on a zero divisor and on `MIN / -1`,
    as Rust does in every build profile.
  * Rust `f64` is embedded as `F64`: an exact rational for finite values plus
    `nan` / `inf` / `neginf`.  Arithmetic on finite values is exact rational
    arithmetic (true `f64` arithmetic rounds; every concrete float computation
    appearing in a theorem below is exact in `f64` as well, e.g. `1 + 2.0`).
  * `Rc<RefCell<Env>>` interior mutation is embedded by value threading: every
    evaluation step returns the (possibly updated) environment it was handed.
    `define`/`undefine` only ever touch the local frame (as in the source), so
    this is faithful for the properties stated here.
  * Rust `HashMap<String, Value>` is embedded as an association list with
    insert-overwrite; iteration order (visible only in the `env` builtin) is
    modelled as insertion order, where the source's hash order is arbitrary.
  * A Rust panic (out-of-bounds `Vec` indexing / `remove`, division overflow,
    `unreachable!()`, `panic!`) is embedded as an explicit `panicked` outcome.
  * Unbounded Rust recursion in the evaluator and in `from_tokens` is embedded
    with a fuel parameter; a distinguished `noFuel`/`outOfFuel` outcome marks
    exhaustion, and `Value.new` is proved to never exhaust its fuel.
-/

namespace Lisp

/-! ## A model of `f64` payloads -/

/-- A Rust `f64` payload: an exact rational for finite values, plus the three
IEEE non-finite shapes.  (A single `0` stands for both IEEE zeros; they compare
equal in every operation the program performs on them.) -/
inductive F64 where
  | finite (q : ℚ)
  | nan
  | inf
  | neginf
deriving DecidableEq

/-- IEEE `==` on `f64`: `nan` is unequal to everything, including itself. -/
def F64.beq : F64 → F64 → Bool
  | .finite a, .finite b => a == b
  | .inf, .inf => true
  | .neginf, .neginf => true
  | _, _ => false

/-- IEEE `partial_cmp` on `f64`: `none` whenever a `nan` is involved. -/
def F64.pcmp : F64 → F64 → Option Ordering
  | .nan, _ => none
  | _, .nan => none
  | .finite a, .finite b => some (compare a b)
  | .finite _, .inf => some .lt
  | .finite _, .neginf => some .gt
  | .inf, .finite _ => some .gt
  | .neginf, .finite _ => some .lt
  | .inf, .inf => some .eq
  | .neginf, .neginf => some .eq
  | .inf, .neginf => some .gt
  | .neginf, .inf => some .lt

/-- `f64` addition (exact on finite operands; no theorem below exercises a
non-finite or rounding case). -/
def F64.add : F64 → F64 → F64
  | .nan, _ => .nan
  | _, .nan => .nan
  | .inf, .neginf => .nan
  | .neginf, .inf => .nan
  | .inf, _ => .inf
  | _, .inf => .inf
  | .neginf, _ => .neginf
  | _, .neginf => .neginf
  | .finite a, .finite b => .finite (a + b)

/-- `f64` negation. -/
def F64.neg : F64 → F64
  | .nan => .nan
  | .inf => .neginf
  | .neginf => .inf
  | .finite a => .finite (-a)

/-- `f64` subtraction. -/
def F64.sub (a b : F64) : F64 := a.add b.neg

/-- `f64` multiplication. -/
def F64.mul : F64 → F64 → F64
  | .nan, _ => .nan
  | _, .nan => .nan
  | .finite a, .finite b => .finite (a * b)
  | .finite a, .inf => if a = 0 then .nan else if a > 0 then .inf else .neginf
  | .finite a, .neginf => if a = 0 then .nan else if a > 0 then .neginf else .inf
  | .inf, .finite b => if b = 0 then .nan else if b > 0 then .inf else .neginf
  | .neginf, .finite b => if b = 0 then .nan else if b > 0 then .neginf else .inf
  | .inf, .inf => .inf
  | .neginf, .neginf => .inf
  | .inf, .neginf => .neginf
  | .neginf, .inf => .neginf

/-- `f64` division (a zero divisor yields `nan` / a signed infinity, never a trap). -/
def F64.div : F64 → F64 → F64
  | .nan, _ => .nan
  | _, .nan => .nan
  | .finite a, .finite b =>
    if b = 0 then (if a = 0 then .nan else if a > 0 then .inf else .neginf)
    else .finite (a / b)
  | .finite _, .inf => .finite 0
  | .finite _, .neginf => .finite 0
  | .inf, .finite b => if b < 0 then .neginf else .inf
  | .neginf, .finite b => if b < 0 then .inf else .neginf
  | _, _ => .nan

/-- Truncation toward zero of a rational. -/
def qtrunc (q : ℚ) : ℚ := if 0 ≤ q then (⌊q⌋ : ℚ) else (⌈q⌉ : ℚ)

/-- `f64` remainder: `a - b * trunc(a / b)`, `nan` when a non-finite operand or a
zero divisor is involved (matching IEEE `%` on `f64`). -/
def F64.rem : F64 → F64 → F64
  | .finite a, .finite b => if b = 0 then .nan else .finite (a - b * qtrunc (a / b))
  | .finite a, .inf => .finite a
  | .finite a, .neginf => .finite a
  | _, _ => .nan

/-! ## Errors (`src/errors.rs`) -/

/-- `ParseError` from `src/errors.rs`. -/
inductive ParseError where
  | Empty
  | MismatchedParens
  | ErroneousToken (t : String)
deriving DecidableEq

/-- `RunError` from `src/errors.rs`. -/
inductive RunError where
  | ProcError (name msg : String)
  | IndexOutOfBounds (idx : Nat)
  | TypeError (name expected got : String)
  | UncallableValue (name typename : String)
  | WrongNumArgs (name : String) (expected got : Nat)
deriving DecidableEq

/-- An evaluation failure: a `RunError` carried in the Rust `Result`, a Rust
panic, or exhaustion of the embedding's fuel (the source recursion is unbounded). -/
inductive EvErr where
  | run (e : RunError)
  | panicked
  | outOfFuel
deriving DecidableEq

/-! ## The value model (`src/values.rs`, `src/env.rs`) -/

mutual
/-- `Value` from `src/values.rs` (`Proc(Box<LispProc>)` with the box elided). -/
inductive Value where
  | Symbol (s : String)
  | Str (s : String)
  | Integer (n : Int)
  | Float (f : F64)
  | Bool (b : Bool)
  | List (l : List Value)
  | Proc (p : LispProc)
  | Nil

/-- `LispProc` from `src/values.rs`: parameter names, unevaluated body, captured env. -/
inductive LispProc where
  | mk (params : List String) (body : Value) (env : Env)

/-- `Env` from `src/env.rs`: a vars map (association list with insert-overwrite,
modelling the `HashMap`) and an optional parent. -/
inductive Env where
  | mk (vars : List (String × Value)) (parent : Option Env)
end

def LispProc.params : LispProc → List String
  | .mk ps _ _ => ps

def LispProc.body : LispProc → Value
  | .mk _ b _ => b

def LispProc.env : LispProc → Env
  | .mk _ _ e => e

def Env.vars : Env → List (String × Value)
  | .mk vs _ => vs

def Env.parent : Env → Option Env
  | .mk _ p => p

instance : Inhabited Value := ⟨.Nil⟩

/-- `HashMap::insert`: overwrite any existing binding for the key. -/
def insertVar (vars : List (String × Value)) (k : String) (v : Value) :
    List (String × Value) :=
  (k, v) :: vars.filter (fun p => p.1 ≠ k)

/-- `Env::new` from `src/env.rs`. -/
def Env.new (parent : Option Env) : Env := .mk [] parent

/-- `Env::define` from `src/env.rs`: insert-or-overwrite in the local frame only. -/
def Env.define (e : Env) (k : String) (v : Value) : Env :=
  .mk (insertVar e.vars k v) e.parent

/-- `Env::undefine` from `src/env.rs`: remove from the local frame only. -/
def Env.undefine (e : Env) (k : String) : Env :=
  .mk (e.vars.filter (fun p => p.1 ≠ k)) e.parent

/-- `Env::get` from `src/env.rs`: look in the local frame, else recurse into the
parent, else fall back to a `Str` holding the looked-up name itself. -/
def Env.get : Env → String → Value
  | .mk vs none, n =>
    match vs.lookup n with
    | some v => v
    | none => .Str n
  | .mk vs (some p), n =>
    match vs.lookup n with
    | some v => v
    | none => p.get n

/-! ## Value operations (`src/values.rs`)

The method-style Rust functions whose Lean signature would mention `Bool` or
`List` are declared at the `Lisp` level (inside a `Value.…` declaration those
names would resolve to `Value`'s constructors); their source names are kept. -/

/-- `itertools::join(·, " ")` over strings (used for a closure's parameter list). -/
def joinSpace : List String → String
  | [] => ""
  | [s] => s
  | s :: rest => s ++ " " ++ joinSpace rest

/-- The Rust `Display` rendering of an `F64` (`{}` on `f64`).  Rust prints the
shortest decimal that round-trips; no theorem below relies on a float's text. -/
def F64.render : F64 → String
  | .nan => "NaN"
  | .inf => "inf"
  | .neginf => "-inf"
  | .finite q => if q.den = 1 then toString q.num else toString q

mutual
/-- `Value::serialize` from `src/values.rs` (the round-trippable encoding:
strings re-quoted, lists parenthesized with space-joined serialized elements,
closures rendered as `(lambda (params) body)`). -/
def serialize : Value → String
  | .Symbol s => s
  | .Str s => "\"" ++ s ++ "\""
  | .Integer n => toString n
  | .Float f => f.render
  | .Bool true => "#t"
  | .Bool false => "#f"
  | .Nil => "nil"
  | .List l => "(" ++ serialize_join l ++ ")"
  | .Proc (.mk ps b _) =>
    "(lambda (" ++ joinSpace ps ++ ") " ++ serialize b ++ ")"

/-- `itertools::join(·, " ")` over serialized elements, as used by `serialize`. -/
def serialize_join : List Value → String
  | [] => ""
  | [v] => serialize v
  | v :: rest => serialize v ++ " " ++ serialize_join rest
end

/-- `Value::to_string` from `src/values.rs` (the human-friendly rendering;
note the source's `List` arm serializes its elements). -/
def to_string : Value → String
  | .Symbol s => s
  | .Str s => s
  | .Integer n => toString n
  | .Float f => f.render
  | .Bool true => "#t"
  | .Bool false => "#f"
  | .Nil => "nil"
  | .List l => "(" ++ serialize_join l ++ ")"
  | .Proc (.mk ps b _) =>
    "(lambda (" ++ joinSpace ps ++ ") " ++ to_string b ++ ")"

/-- `Value::to_bool` from `src/values.rs`, verbatim: note the `List` arm is
`l.is_empty()` even though the doc comment above it says "nil, empty list,
and 0 are falsy". -/
def to_bool : Value → Bool
  | .Bool b => b
  | .Nil => false
  | .List l => l.isEmpty
  | .Integer n => n != 0
  | .Float f => !(f.beq (.finite 0))
  | _ => true

/-- `Value::get_type` from `src/values.rs`. -/
def get_type : Value → String
  | .Symbol _ => "Symbol"
  | .Str _ => "Str"
  | .Integer _ => "Integer"
  | .Float _ => "Float"
  | .Bool _ => "Bool"
  | .List _ => "List"
  | .Proc _ => "Proc"
  | .Nil => "Nil"

/-- The `i64 as f64` cast (exact here; the true cast rounds above `2^53`,
which no theorem below exercises). -/
def i64ToF64 (n : Int) : F64 := .finite (n : ℚ)

/-- `PartialEq for Value` from `src/values.rs`: equality only within matching
variants plus Integer/Float cross-comparison with widening; lists, procedures
and mismatched variants are never equal. -/
def peq : Value → Value → Bool
  | .Bool a, .Bool b => a == b
  | .Integer a, .Integer b => a == b
  | .Float a, .Float b => a.beq b
  | .Integer a, .Float b => (i64ToF64 a).beq b
  | .Float a, .Integer b => a.beq (i64ToF64 b)
  | .Symbol a, .Symbol b => a == b
  | .Str a, .Str b => a == b
  | .Nil, .Nil => true
  | _, _ => false

/-- `PartialOrd for Value` from `src/values.rs`: a partial order on
Integer/Float pairs only (with widening). -/
def pcmp : Value → Value → Option Ordering
  | .Integer a, .Integer b => some (compare a b)
  | .Float a, .Float b => a.pcmp b
  | .Integer a, .Float b => (i64ToF64 a).pcmp b
  | .Float a, .Integer b => a.pcmp (i64ToF64 b)
  | _, _ => none

/-! ## Arithmetic (`src/arithmetic.rs`) -/

/-- Two's-complement wrap into the `i64` range (release-profile overflow
behavior for `+ - *`). -/
def wrap64 (n : Int) : Int := (n + 2 ^ 63) % 2 ^ 64 - 2 ^ 63

/-- `i64::MIN`. -/
def i64Min : Int := -(2 ^ 63)

/-- `impl ops::Add for Value`: the four numeric cases (mixed pairs widen to
`Float`); every other pair is the source's `unreachable!()`, a panic. -/
def Value.vadd : Value → Value → Except EvErr Value
  | .Integer a, .Integer b => .ok (.Integer (wrap64 (a + b)))
  | .Float a, .Float b => .ok (.Float (a.add b))
  | .Integer a, .Float b => .ok (.Float ((i64ToF64 a).add b))
  | .Float a, .Integer b => .ok (.Float (a.add (i64ToF64 b)))
  | _, _ => .error .panicked

/-- `impl ops::Sub for Value`. -/
def Value.vsub : Value → Value → Except EvErr Value
  | .Integer a, .Integer b => .ok (.Integer (wrap64 (a - b)))
  | .Float a, .Float b => .ok (.Float (a.sub b))
  | .Integer a, .Float b => .ok (.Float ((i64ToF64 a).sub b))
  | .Float a, .Integer b => .ok (.Float (a.sub (i64ToF64 b)))
  | _, _ => .error .panicked

/-- `impl ops::Mul for Value`. -/
def Value.vmul : Value → Value → Except EvErr Value
  | .Integer a, .Integer b => .ok (.Integer (wrap64 (a * b)))
  | .Float a, .Float b => .ok (.Float (a.mul b))
  | .Integer a, .Float b => .ok (.Float ((i64ToF64 a).mul b))
  | .Float a, .Integer b => .ok (.Float (a.mul (i64ToF64 b)))
  | _, _ => .error .panicked

/-- `impl ops::Div for Value`: `i64` division truncates toward zero and panics
on a zero divisor or on `MIN / -1` (in every build profile). -/
def Value.vdiv : Value → Value → Except EvErr Value
  | .Integer a, .Integer b =>
    if b = 0 ∨ (a = i64Min ∧ b = -1) then .error .panicked
    else .ok (.Integer (Int.tdiv a b))
  | .Float a, .Float b => .ok (.Float (a.div b))
  | .Integer a, .Float b => .ok (.Float ((i64ToF64 a).div b))
  | .Float a, .Integer b => .ok (.Float (a.div (i64ToF64 b)))
  | _, _ => .error .panicked

/-- `impl ops::Rem for Value`: `i64` remainder truncates toward zero and panics
on a zero divisor or on `MIN % -1`. -/
def Value.vrem : Value → Value → Except EvErr Value
  | .Integer a, .Integer b =>
    if b = 0 ∨ (a = i64Min ∧ b = -1) then .error .panicked
    else .ok (.Integer (Int.tmod a b))
  | .Float a, .Float b => .ok (.Float (a.rem b))
  | .Integer a, .Float b => .ok (.Float ((i64ToF64 a).rem b))
  | .Float a, .Integer b => .ok (.Float (a.rem (i64ToF64 b)))
  | _, _ => .error .panicked

/-! ## The tokenizer (`src/parser.rs`) -/

/-- `Token` from `src/parser.rs`. -/
inductive Token where
  | Item (s : String)
  | LeftParen
  | RightParen
deriving DecidableEq

/-- `push_item` from `src/parser.rs`: flush a nonempty pending item.  The
pending item is carried as a `List Char` (the source pushes into a `String`
character by character). -/
def push_item (item : List Char) (tokens : List Token) : List Token :=
  if item.length != 0 then tokens ++ [.Item (String.mk item)] else tokens

/-- The character loop of `tokenize` from `src/parser.rs`: `item` is the pending
item, `escaped` and `stringState` the two mode flags, `tokens` the accumulator. -/
def tokenizeAux : List Char → List Char → Bool → Bool → List Token → List Token
  | [], item, _, _, tokens => push_item item tokens
  | c :: cs, item, escaped, stringState, tokens =>
    if !stringState then
      if c = '(' then tokenizeAux cs [] escaped stringState (push_item item tokens ++ [.LeftParen])
      else if c = ')' then
        tokenizeAux cs [] escaped stringState (push_item item tokens ++ [.RightParen])
      else if c = ' ' then tokenizeAux cs [] escaped stringState (push_item item tokens)
      else if c = '"' then tokenizeAux cs (item ++ ['"']) escaped true tokens
      else if c = ';' then push_item item tokens
      else tokenizeAux cs (item ++ [c]) escaped stringState tokens
    else if !escaped then
      if c = '\\' then tokenizeAux cs item true stringState tokens
      else if c = '"' then tokenizeAux cs [] escaped false (push_item (item ++ ['"']) tokens)
      else tokenizeAux cs (item ++ [c]) escaped stringState tokens
    else
      tokenizeAux cs (item ++ ['\\', c]) false stringState tokens

/-- `tokenize` from `src/parser.rs`. -/
def tokenize (s : String) : List Token := tokenizeAux s.data [] false false []

/-! ## `f64` literal parsing (Rust `str::parse::<f64>`)

`atomize` calls `token.parse::<f64>()`.  The accepted grammar (from the Rust
standard library documentation) is
`Sign? ( 'inf' | 'infinity' | 'nan' | Number )` case-insensitively for the
keywords, with `Number ::= Digits | Digits '.' Digits? | Digits? '.' Digits`
followed by an optional `('e'|'E') Sign? Digits` exponent.  The numeric value
is modelled exactly as a rational (the true parse rounds to the nearest `f64`;
every literal a theorem below touches is exactly representable). -/

def isDigitCh (c : Char) : Bool := c.isDigit

/-- The number a digit run denotes. -/
def digitsToNat (ds : List Char) : Nat :=
  ds.foldl (fun acc c => 10 * acc + (c.toNat - 48)) 0

/-- Split a leading run of decimal digits off a character list. -/
def takeDigitRun (cs : List Char) : List Char × List Char :=
  (cs.takeWhile isDigitCh, cs.dropWhile isDigitCh)

/-- The digits of an exponent with its sign already stripped: the whole
remainder must be a nonempty digit run. -/
def expDigits (sgn : Int) (cs : List Char) : Option Int :=
  match takeDigitRun cs with
  | ([], _) => none
  | (_, _ :: _) => none
  | (eds, []) => some (sgn * (digitsToNat eds : Int))

/-- The optional exponent suffix: empty, or `('e'|'E') Sign? Digits`.
Returns the signed exponent, or `none` when malformed. -/
def parseExpPart : List Char → Option Int
  | [] => some 0
  | e :: r =>
    if e = 'e' ∨ e = 'E' then
      match r with
      | '+' :: r1 => expDigits 1 r1
      | '-' :: r1 => expDigits (-1) r1
      | r1 => expDigits 1 r1
    else none

/-- The `Number` part of the grammar: mantissa digits with an optional dot,
then the optional exponent.  Returns the exact rational value
`digits(int ++ frac) × 10^(exp − |frac|)`, built with `mkRat` over integer
powers of ten. -/
def parseDecPart (cs : List Char) : Option ℚ :=
  let (intDs, r1) := takeDigitRun cs
  let (fracDs, r2) : List Char × List Char :=
    match r1 with
    | '.' :: r => takeDigitRun r
    | _ => ([], r1)
  if (intDs.isEmpty ∧ fracDs.isEmpty) ∨ (intDs.isEmpty ∧ r1.head? ≠ some '.') then none
  else
    match parseExpPart r2 with
    | none => none
    | some ex =>
      let num : Int := (digitsToNat (intDs ++ fracDs) : Int) * 10 ^ ex.toNat
      let den : Nat := 10 ^ (fracDs.length + (-ex).toNat)
      some (mkRat num den)

/-- `str::parse::<f64>()`: `some` exactly on the accepted grammar. -/
def parseF64 (s : String) : Option F64 :=
  let (neg, body) : Bool × List Char :=
    match s.data with
    | '+' :: r => (false, r)
    | '-' :: r => (true, r)
    | r => (false, r)
  let lower := body.map Char.toLower
  if lower = "inf".data ∨ lower = "infinity".data then
    some (if neg then .neginf else .inf)
  else if lower = "nan".data then some .nan
  else
    match parseDecPart body with
    | some q => some (.finite (if neg then -q else q))
    | none => none

/-! ## Atomization and tree building (`src/parser.rs`) -/

/-- `Value::atomize` from `src/parser.rs`.  The quoted-string test
(`starts_with('"') && ends_with('"') && len() > 1`) is phrased on the character
list; the strip is the source's `pop()` + `remove(0)`.  The numeric branch is
the source's `token.parse::<f64>()`; its arm constructs `Number(n)`, a
constructor that does not exist in the `Value` enum (the enum has `Integer` and
`Float`) — since the payload is an `f64`, the nearest type-correct reading,
`Float`, is used here. -/
def atomize (token : String) : Value :=
  if token.data.head? = some '"' ∧ token.data.getLast? = some '"' ∧ 1 < token.length then
    .Str (String.mk (token.data.drop 1).dropLast)
  else
    match parseF64 token with
    | some f => .Float f
    | none =>
      if token = "#t" then .Bool true
      else if token = "#f" then .Bool false
      else if token = "nil" then .Nil
      else .Symbol token

/-- The outcome of one `from_tokens` call: the built value with the remaining
tokens, a `ParseError`, a Rust panic (an out-of-bounds `Vec::remove` or index),
or fuel exhaustion (an artifact of the embedding; `Value.new` is proved below
to supply enough fuel). -/
inductive PRes where
  | ok (v : Value) (rest : List Token)
  | err (e : ParseError)
  | panicked
  | noFuel

mutual
/-- `Value::from_tokens` from `src/parser.rs`, on fuel.  `tokens.remove(0)` of
an empty vector is a panic; a leading `)` is `ErroneousToken(")")`; a `'` item
must be followed by a left paren (`ErroneousToken("'")` otherwise, a panic when
nothing follows); any other item atomizes. -/
def from_tokens : Nat → List Token → PRes
  | 0, _ => .noFuel
  | _ + 1, [] => .panicked
  | _ + 1, .RightParen :: _ => .err (.ErroneousToken ")")
  | fuel + 1, .LeftParen :: rest =>
    match parse_list fuel rest [] with
    | .ok v r => .ok v r
    | other => other
  | fuel + 1, .Item s :: rest =>
    if s = "'" then
      match rest with
      | [] => .panicked
      | .LeftParen :: r2 =>
        match parse_list fuel r2 [] with
        | .ok v r => .ok (.List [.Symbol "quote", v]) r
        | other => other
      | _ :: _ => .err (.ErroneousToken "'")
    else .ok (atomize s) rest

/-- The `while tokens[0] != RightParen { list.push(from_tokens(tokens)?) }`
loop (shared by the list and quoted-list branches), with the trailing
`tokens.remove(0)` consuming the right paren; `tokens[0]` of an empty vector
is a panic. -/
def parse_list : Nat → List Token → List Value → PRes
  | 0, _, _ => .noFuel
  | _ + 1, [], _ => .panicked
  | _ + 1, .RightParen :: rest, acc => .ok (.List acc) rest
  | fuel + 1, t :: rest, acc =>
    match from_tokens fuel (t :: rest) with
    | .ok v r =>
      match parse_list fuel r (acc ++ [v]) with
      | .ok w r2 => .ok w r2
      | other => other
    | other => other
end

/-- The outcome of `Value::new`. -/
inductive ParseOutcome where
  | ok (v : Value)
  | perr (e : ParseError)
  | panicked
  | noFuel

/-- `Value::new` from `src/values.rs`: tokenize, compare paren counts, then
build the first expression (its leftover tokens are discarded, as the source's
mutated `Vec` is).  Fuel `2 * tokens.length + 2` is proved sufficient below. -/
def Value.new (s : String) : ParseOutcome :=
  let tokens := tokenize s
  let lefts := tokens.count .LeftParen
  let rights := tokens.count .RightParen
  if tokens.isEmpty then .perr .Empty
  else if lefts = rights then
    match from_tokens (2 * tokens.length + 2) tokens with
    | .ok v _ => .ok v
    | .err e => .perr e
    | .panicked => .panicked
    | .noFuel => .noFuel
  else .perr .MismatchedParens

/-! ## The evaluator (`src/eval.rs`, `src/builtins.rs`, `LispProc::call`)

Each builtin takes the recursive evaluator as an explicit argument `ev`
(the source's `eval::eval`); `eval` below ties the knot, decrementing fuel at
each nesting level.  A step returns the computed value together with the
(possibly locally mutated) environment it was handed — the value-threading
image of `Rc<RefCell<Env>>` in-place mutation. -/

/-- The result of one evaluation step. -/
abbrev Res := Except EvErr (Value × Env)

/-- The type of the recursive evaluator handed to each builtin. -/
abbrev Ev := Value → Env → Res

/-- `check_num_args!` from `src/builtins.rs`. -/
def check_num_args (args : List Value) (num : Nat) (name : String) :
    Except EvErr Unit :=
  if args.length ≠ num then
    .error (.run (.WrongNumArgs name num args.length))
  else .ok ()

/-- The `extract!($value, Symbol, $proc)` macro from `src/builtins.rs`,
specialized to `Symbol` (the `expected` text is `stringify!`'s output). -/
def extractSymbol (v : Value) (proc : String) : Except EvErr String :=
  match v with
  | .Symbol s => .ok s
  | _ => .error (.run (.TypeError proc "Symbol" (get_type v)))

/-- `extract!($value, List, $proc)`. -/
def extractList (v : Value) (proc : String) : Except EvErr (List Value) :=
  match v with
  | .List l => .ok l
  | _ => .error (.run (.TypeError proc "List" (get_type v)))

/-- `extract!($value, Integer, $proc)`. -/
def extractInteger (v : Value) (proc : String) : Except EvErr Int :=
  match v with
  | .Integer n => .ok n
  | _ => .error (.run (.TypeError proc "Integer" (get_type v)))

/-- `extract!($value, Str, $proc)`. -/
def extractStr (v : Value) (proc : String) : Except EvErr String :=
  match v with
  | .Str s => .ok s
  | _ => .error (.run (.TypeError proc "Str" (get_type v)))

/-- `eval_list` from `src/eval.rs`: evaluate every element in order against the
one (shared, hence threaded) environment, propagating the first failure. -/
def eval_list (ev : Ev) : List Value → Env → Except EvErr (List Value × Env)
  | [], env => .ok ([], env)
  | a :: rest, env => do
    let (v, env1) ← ev a env
    let (vs, env2) ← eval_list ev rest env1
    .ok (v :: vs, env2)

/-- `resolve_symbol` from `src/eval.rs`: the fixed constant table, then
`env.get`.  `pi` and `e` carry the exact rationals of the `f64` constants
`consts::PI` and `consts::E`; `MAX`/`MIN` the exact value of `f64::MAX`. -/
def resolve_symbol (s : String) (env : Env) : Value :=
  if s = "nil" then .Nil
  else if s = "else" then .Bool true
  else if s = "pi" then .Float (.finite (884279719003555 / 281474976710656 : ℚ))
  else if s = "e" then .Float (.finite (6121026514868073 / 2251799813685248 : ℚ))
  else if s = "NAN" then .Float .nan
  else if s = "INF" then .Float .inf
  else if s = "-INF" then .Float .neginf
  else if s = "MAX" then .Float (.finite ((2 ^ 1024 - 2 ^ 971 : Int) : ℚ))
  else if s = "MIN" then .Float (.finite (-((2 ^ 1024 - 2 ^ 971 : Int) : ℚ)))
  else env.get s

/-- The parameter-binding `while` loop of `LispProc::call`: positional
`define`s until the `"."` sentinel, whose follower takes the remaining
arguments as a `List` (indexing past the end of `params`, or `args.remove(0)`
of an empty vector, is a panic). -/
def bind_loop : List String → List Value → List (String × Value) →
    Except EvErr (List (String × Value))
  | [], _, acc => .ok acc
  | p :: ps, args, acc =>
    if p = "." then
      match ps with
      | [] => .error .panicked
      | q :: _ => .ok (insertVar acc q (.List args))
    else
      match args with
      | [] => .error .panicked
      | a :: rest => bind_loop ps rest (insertVar acc p a)

/-- `LispProc::call` from `src/values.rs`: the arity check is skipped whenever
the parameter list contains the `"."` sentinel; binding happens in a fresh
child environment whose parent is the closure's captured environment, and the
body is evaluated there once. -/
def LispProc.call (ev : Ev) (p : LispProc) (name : String) (args : List Value) :
    Except EvErr Value :=
  if ¬p.params.contains "." ∧ args.length ≠ p.params.length then
    .error (.run (.WrongNumArgs name p.params.length args.length))
  else
    match bind_loop p.params args [] with
    | .error e => .error e
    | .ok vars => (ev p.body (.mk vars (some p.env))).map (fun r => r.1)

/-! ### Builtins (`src/builtins.rs`) -/

/-- `lambda`: first raw argument a list of parameter symbols, second the
unevaluated body; captures the current environment. -/
def lambda (args : List Value) (env : Env) : Res := do
  check_num_args args 2 "lambda"
  let params ← extractList (args.get! 0) "lambda"
  let names ← params.mapM (fun p => extractSymbol p "lambda (in params)")
  .ok (.Proc (.mk names (args.get! 1) env), env)

/-- `define`: bind a symbol to an evaluated expression, or the
function-definition shorthand (a list head names an implicit `lambda`). -/
def define (ev : Ev) (args : List Value) (env : Env) : Res := do
  check_num_args args 2 "define"
  match args.get! 0 with
  | .Symbol var_name => do
    let (res, env1) ← ev (args.get! 1) env
    .ok (.Str "success", env1.define var_name res)
  | .List list =>
    if list.length < 1 then
      .error (.run (.ProcError "define" "cannot define an empty list"))
    else do
      let proc_name ← extractSymbol (list.get! 0) "define"
      let (proc, env1) ← lambda [.List (list.drop 1), args.get! 1] env
      .ok (.Str "success", env1.define proc_name proc)
  | _ => .error (.run (.ProcError "define" "only symbols can be redefined"))

/-- `undef`. -/
def undef (args : List Value) (env : Env) : Res := do
  check_num_args args 1 "undef"
  let var_name ← extractSymbol (args.get! 0) "undef"
  .ok (.Str "success", env.undefine var_name)

/-- The binding loop of `let`: each binding pair's expression is evaluated in
the enclosing environment (threaded), accumulating local bindings. -/
def local_bind_loop (ev : Ev) : List Value → Env → List (String × Value) →
    Except EvErr (List (String × Value) × Env)
  | [], env, acc => .ok (acc, env)
  | b :: rest, env, acc => do
    let bind ← extractList b "let (in binds list)"
    check_num_args bind 2 "let (in binding)"
    let var_name ← extractSymbol (bind.get! 0) "let (in binding)"
    let (res, env1) ← ev (bind.get! 1) env
    local_bind_loop ev rest env1 (insertVar acc var_name res)

/-- `let` (`local_bind` in the source): evaluate the second raw argument in a
fresh child environment holding the bindings.  The source creates the child
before the loop with the live `Rc` parent, which the binding evaluations may
mutate in place; under value threading that parent is the post-loop `env1`. -/
def local_bind (ev : Ev) (args : List Value) (env : Env) : Res := do
  check_num_args args 2 "let"
  let bindings ← extractList (args.get! 0) "let"
  let (vars, env1) ← local_bind_loop ev bindings env []
  let (res, _) ← ev (args.get! 1) (.mk vars (some env1))
  .ok (res, env1)

/-- `if` (`if_else` in the source): evaluate the condition, then evaluate
exactly one branch by its truthiness. -/
def if_else (ev : Ev) (args : List Value) (env : Env) : Res := do
  check_num_args args 3 "if"
  let (c, env1) ← ev (args.get! 0) env
  let test := to_bool c
  ev (if test then args.get! 1 else args.get! 2) env1

/-- The branch loop of `cond`. -/
def cond_loop (ev : Ev) : List Value → Env → Res
  | [], _ =>
    .error (.run (.ProcError "cond" "no branches evaluated and no `else` branch found"))
  | b :: rest, env => do
    let branch ← extractList b "cond"
    check_num_args branch 2 "cond (in branch)"
    let (t, env1) ← ev (branch.get! 0) env
    if to_bool t then ev (branch.get! 1) env1 else cond_loop ev rest env1

/-- `cond`. -/
def cond (ev : Ev) (args : List Value) (env : Env) : Res :=
  if args.length < 1 then
    .error (.run (.ProcError "cond" "at least 1 branch required"))
  else cond_loop ev args env

/-- `type` (`get_type` builtin in the source). -/
def type_builtin (ev : Ev) (args : List Value) (env : Env) : Res := do
  check_num_args args 1 "type"
  let (v, env1) ← ev (args.get! 0) env
  .ok (.Str (get_type v), env1)

/-- `quote`: return the single raw argument unevaluated. -/
def quote (args : List Value) (env : Env) : Res := do
  check_num_args args 1 "quote"
  .ok (args.get! 0, env)

/-- `eval` builtin (`builtins::eval` in the source): evaluate the argument,
then evaluate the result again. -/
def eval_builtin (ev : Ev) (args : List Value) (env : Env) : Res := do
  check_num_args args 1 "eval"
  let (vs, env1) ← eval_list ev args env
  ev (vs.get! 0) env1

/-- `env` builtin: the symbols bound in the immediate frame (iteration order
modelled as insertion order; the source's hash order is arbitrary). -/
def env_builtin (args : List Value) (env : Env) : Res :=
  match args with
  | _ => .ok (.List (env.vars.map (fun p => .Symbol p.1)), env)

/-- The argument type check loop of `math`: first non-numeric evaluated
argument is a `TypeError` naming the operator. -/
def check_numeric (op : String) : List Value → Except EvErr Unit
  | [] => .ok ()
  | .Integer _ :: rest => check_numeric op rest
  | .Float _ :: rest => check_numeric op rest
  | v :: _ => .error (.run (.TypeError op "number" (get_type v)))

/-- `math` from `src/builtins.rs`: at least two raw arguments, eagerly
evaluated, all numeric; `+ - * /` left-fold the corresponding `Value`
operation from the first operand, while the `"%"` arm applies `%` to the
first two operands only (`init % args.remove(0)`); any other operator is the
source's `panic!`. -/
def math (ev : Ev) (op : String) (args : List Value) (env : Env) : Res :=
  if args.length < 2 then
    .error (.run (.ProcError op "at least 2 arguments required"))
  else do
    let (vs, env1) ← eval_list ev args env
    check_numeric op vs
    match vs with
    | [] => .error .panicked
    | init :: rest =>
      if op = "+" then (rest.foldlM Value.vadd init).map (fun v => (v, env1))
      else if op = "-" then (rest.foldlM Value.vsub init).map (fun v => (v, env1))
      else if op = "*" then (rest.foldlM Value.vmul init).map (fun v => (v, env1))
      else if op = "/" then (rest.foldlM Value.vdiv init).map (fun v => (v, env1))
      else if op = "%" then
        match rest with
        | [] => .error .panicked
        | m :: _ => (Value.vrem init m).map (fun v => (v, env1))
      else .error .panicked

/-- `logic` from `src/builtins.rs`: exactly two raw arguments, eagerly
evaluated; comparisons via `PartialEq`/`PartialOrd`, `and`/`or` via
truthiness (not short-circuiting). -/
def logic (ev : Ev) (op : String) (args : List Value) (env : Env) : Res := do
  check_num_args args 2 ("logic op `" ++ op ++ "`")
  let (vs, env1) ← eval_list ev args env
  let a := vs.get! 0
  let b := vs.get! 1
  if op = "=" then .ok (.Bool (peq a b), env1)
  else if op = "!=" then .ok (.Bool (!peq a b), env1)
  else if op = ">" then .ok (.Bool (pcmp a b == some .gt), env1)
  else if op = ">=" then .ok (.Bool (pcmp a b == some .gt || pcmp a b == some .eq), env1)
  else if op = "<" then .ok (.Bool (pcmp a b == some .lt), env1)
  else if op = "<=" then .ok (.Bool (pcmp a b == some .lt || pcmp a b == some .eq), env1)
  else if op = "and" then .ok (.Bool (to_bool a && to_bool b), env1)
  else if op = "or" then .ok (.Bool (to_bool a || to_bool b), env1)
  else .error .panicked

/-- `not`: the logical inverse of the evaluated argument's truthiness. -/
def not_builtin (ev : Ev) (args : List Value) (env : Env) : Res := do
  check_num_args args 1 "not"
  let (vs, env1) ← eval_list ev args env
  .ok (.Bool (!to_bool (vs.get! 0)), env1)

/-- `cons`: prepend the first evaluated argument to the second (a list). -/
def cons (ev : Ev) (args : List Value) (env : Env) : Res := do
  check_num_args args 2 "cons"
  let (vs, env1) ← eval_list ev args env
  let list ← extractList (vs.get! 1) "cons"
  .ok (.List (vs.get! 0 :: list), env1)

/-- `length` of a `List` (element count) or a `Str` (character count). -/
def length (ev : Ev) (args : List Value) (env : Env) : Res := do
  check_num_args args 1 "length"
  let (vs, env1) ← eval_list ev args env
  match vs.get! 0 with
  | .List l => .ok (.Integer l.length, env1)
  | .Str s => .ok (.Integer s.length, env1)
  | v =>
    .error (.run (.ProcError "length"
      ("expected a `List` or `Str`, got a " ++ get_type v ++ " instead")))

/-- The `i64 as usize` cast (two's-complement, 64-bit). -/
def usize_of_i64 (i : Int) : Nat := (i % 2 ^ 64).toNat

/-- Release-profile wrapping `usize` decrement, as in `idx as usize - 1`. -/
def usize_sub_one (n : Nat) : Nat := (n + (2 ^ 64 - 1)) % 2 ^ 64

/-- `list-ref` (`list_ref` in the source): `list.get(idx as usize - 1)`,
`IndexOutOfBounds(idx as usize)` when out of range. -/
def list_ref (ev : Ev) (args : List Value) (env : Env) : Res := do
  check_num_args args 2 "list-ref"
  let (vs, env1) ← eval_list ev args env
  let list ← extractList (vs.get! 0) "list-ref"
  let idx ← extractInteger (vs.get! 1) "list-ref"
  match list.get? (usize_sub_one (usize_of_i64 idx)) with
  | some v => .ok (v, env1)
  | none => .error (.run (.IndexOutOfBounds (usize_of_i64 idx)))

/-- `append`: concatenate two evaluated lists. -/
def append (ev : Ev) (args : List Value) (env : Env) : Res := do
  check_num_args args 2 "append"
  let (vs, env1) ← eval_list ev args env
  let list1 ← extractList (vs.get! 0) "append"
  let list2 ← extractList (vs.get! 1) "append"
  .ok (.List (list1 ++ list2), env1)

/-- `car`: the first element of an evaluated list, or `Nil` when empty. -/
def car (ev : Ev) (args : List Value) (env : Env) : Res := do
  check_num_args args 1 "car"
  let (vs, env1) ← eval_list ev args env
  let list ← extractList (vs.get! 0) "car"
  .ok ((list.head?).getD .Nil, env1)

/-- `cdr`: everything but the first element (the empty list stays empty). -/
def cdr (ev : Ev) (args : List Value) (env : Env) : Res := do
  check_num_args args 1 "cdr"
  let (vs, env1) ← eval_list ev args env
  let list ← extractList (vs.get! 0) "cdr"
  .ok (.List (list.drop 1), env1)

/-- `rand`: a random argument, or a random element of a single list argument
(`Nil` when empty).  The source draws uniformly via `thread_rng`; the draw is
modelled as the first element — no claim below concerns `rand`. -/
def rand (ev : Ev) (args : List Value) (env : Env) : Res :=
  if args.length = 0 then
    .error (.run (.ProcError "rand" "at least 1 argument required"))
  else if args.length > 1 then do
    let (vs, env1) ← eval_list ev args env
    .ok ((vs.head?).getD .Nil, env1)
  else do
    let (vs, env1) ← eval_list ev args env
    let list ← extractList (vs.get! 0) "rand"
    .ok ((list.head?).getD .Nil, env1)

/-- `cat`: concatenate the `Display` forms of all evaluated arguments. -/
def cat (ev : Ev) (args : List Value) (env : Env) : Res := do
  let (vs, env1) ← eval_list ev args env
  .ok (.Str (String.join (vs.map to_string)), env1)

/-- `uppercase` (Lean's `toUpper` is ASCII-only where Rust's `to_uppercase`
is full Unicode; no claim below depends on the difference). -/
def uppercase (ev : Ev) (args : List Value) (env : Env) : Res := do
  check_num_args args 1 "uppercase"
  let (vs, env1) ← eval_list ev args env
  let s ← extractStr (vs.get! 0) "uppercase"
  .ok (.Str s.toUpper, env1)

/-- `lowercase`. -/
def lowercase (ev : Ev) (args : List Value) (env : Env) : Res := do
  check_num_args args 1 "lowercase"
  let (vs, env1) ← eval_list ev args env
  let s ← extractStr (vs.get! 0) "lowercase"
  .ok (.Str s.toLower, env1)

/-- The `BUILTINS` registry from `src/builtins.rs` as a name dispatch, in the
source's table order (a linear first-match scan there; all names are distinct,
so dispatch by name is equivalent).  `none` exactly when the name is not a
builtin. -/
def call_builtin (ev : Ev) (s : String) (args : List Value) (env : Env) :
    Option Res :=
  if s = "define" then some (define ev args env)
  else if s = "undef" then some (undef args env)
  else if s = "let" then some (local_bind ev args env)
  else if s = "lambda" then some (lambda args env)
  else if s = "if" then some (if_else ev args env)
  else if s = "cond" then some (cond ev args env)
  else if s = "type" then some (type_builtin ev args env)
  else if s = "quote" then some (quote args env)
  else if s = "eval" then some (eval_builtin ev args env)
  else if s = "env" then some (env_builtin args env)
  else if s = "+" then some (math ev "+" args env)
  else if s = "-" then some (math ev "-" args env)
  else if s = "*" then some (math ev "*" args env)
  else if s = "/" then some (math ev "/" args env)
  else if s = "modulo" then some (math ev "%" args env)
  else if s = "=" then some (logic ev "=" args env)
  else if s = "!=" then some (logic ev "!=" args env)
  else if s = ">" then some (logic ev ">" args env)
  else if s = ">=" then some (logic ev ">=" args env)
  else if s = "<" then some (logic ev "<" args env)
  else if s = "<=" then some (logic ev "<=" args env)
  else if s = "and" then some (logic ev "and" args env)
  else if s = "or" then some (logic ev "or" args env)
  else if s = "not" then some (not_builtin ev args env)
  else if s = "list-ref" then some (list_ref ev args env)
  else if s = "append" then some (append ev args env)
  else if s = "car" then some (car ev args env)
  else if s = "cdr" then some (cdr ev args env)
  else if s = "length" then some (length ev args env)
  else if s = "cons" then some (cons ev args env)
  else if s = "rand" then some (rand ev args env)
  else if s = "cat" then some (cat ev args env)
  else if s = "uppercase" then some (uppercase ev args env)
  else if s = "lowercase" then some (lowercase ev args env)
  else none

/-- `run_proc` from `src/eval.rs`: the first element is the operator — a
builtin name, a symbol resolving to a closure, a nested list producing the
operator, a closure value, or an uncallable value. -/
def run_proc (ev : Ev) (args : List Value) (env : Env) : Res :=
  match args with
  | [] => .error .panicked
  | first :: rest =>
    match first with
    | .Symbol s =>
      match call_builtin ev s rest env with
      | some r => r
      | none =>
        match resolve_symbol s env with
        | .Proc p => do
          let (vs, env1) ← eval_list ev rest env
          let v ← LispProc.call ev p s vs
          .ok (v, env1)
        | other =>
          .error (.run (.UncallableValue s (get_type other)))
    | .List l => do
      let (res, env1) ← ev (.List l) env
      ev (.List (res :: rest)) env1
    | .Proc p => do
      let (vs, env1) ← eval_list ev rest env
      let v ← LispProc.call ev p "<anonymous procedure>" vs
      .ok (v, env1)
    | other =>
      .error (.run (.UncallableValue (to_string other) (get_type other)))

/-- `eval` from `src/eval.rs`, structural on fuel: a `'`-prefixed symbol
self-quotes (stripped), other symbols resolve; an empty list is `Nil`, a
non-empty list is a procedure invocation; everything else self-evaluates. -/
def eval : Nat → Value → Env → Res
  | 0, _, _ => .error .outOfFuel
  | fuel + 1, v, env =>
    match v with
    | .Symbol s =>
      -- `sym.starts_with("'")` / `sym[1..]`, phrased on the character list
      -- (the leading quote is one byte, so byte and char slicing agree)
      if s.data.take 1 = "'".data then .ok (.Symbol (String.mk (s.data.drop 1)), env)
      else .ok (resolve_symbol s env, env)
    | .List l =>
      if l.length = 0 then .ok (.Nil, env)
      else run_proc (eval fuel) l env
    | other => .ok (other, env)

/-! ## Spec-side / claim-side definitions -/

/-- Spec-side (§3 of the spec): the first binding found walking from the local
frame outward through parents. -/
def chain_lookup : Env → String → Option Value
  | .mk vs none, n => vs.lookup n
  | .mk vs (some p), n =>
    match vs.lookup n with
    | some v => some v
    | none => chain_lookup p n

/-- Claim-side (C3): positional binding of parameters to arguments, as the
spec describes closure application for non-variadic parameter lists. -/
def bind_positional (ps : List String) (vs : List Value) : List (String × Value) :=
  (ps.zip vs).foldl (fun acc pv => insertVar acc pv.1 pv.2) []

/-- Is a value numeric (`Integer` or `Float`)? -/
def is_number : Value → Bool
  | .Integer _ => true
  | .Float _ => true
  | _ => false

/-- Claim-side (C5): the binary arithmetic operation named by `op` — the
source's `Value` operator impls. -/
def arith_bin (op : String) : Value → Value → Except EvErr Value :=
  if op = "+" then Value.vadd
  else if op = "-" then Value.vsub
  else if op = "*" then Value.vmul
  else if op = "/" then Value.vdiv
  else Value.vrem

/-- Claim-side (C5): the left-fold of the binary operation starting from the
first operand over all remaining operands. -/
def fold_arith (op : String) (init : Value) (rest : List Value) :
    Except EvErr Value :=
  rest.foldlM (arith_bin op) init

/-- The empty root environment. -/
def root_env : Env := .mk [] none

/-- Scenario (C3): scope A binds `x := 1`. -/
def scopeA : Env := .mk [("x", .Integer 1)] none

/-- Scenario (C3): a closure over `x`, created in scope A. -/
def cloA : LispProc := .mk ["y"] (.Symbol "x") scopeA

/-- Scenario (C3): scope B rebinds `x := 2` and binds `f` to the closure. -/
def scopeB : Env := .mk [("x", .Integer 2), ("f", .Proc cloA)] (some scopeA)

/-- Scenario (C10): a variadic closure `(lambda (a . r) r)`. -/
def cloVar : LispProc := .mk ["a", ".", "r"] (.Symbol "r") scopeA

/-- Scenario (C4): `(if #t 1 (undefined-proc))`. -/
def if_example : Value :=
  .List [.Symbol "if", .Bool true, .Integer 1, .List [.Symbol "undefined-proc"]]

/-! ## Round-trip machinery (claim C9)

The serialized text of a value re-parses to the value itself for the class
`isGood`: `Bool`, `Nil`, strings without `"` or `\` (the serializer adds no
escaping), symbols that tokenize as one item and atomize back to themselves,
and lists of such values.  Numeric atoms are excluded: the atomizer's numeric
branch is broken (see C7), and a float's rendered text is outside this model. -/

/-- A character that the tokenizer treats as ordinary item material. -/
def plainChar (c : Char) : Bool :=
  !(c = '(' || c = ')' || c = ' ' || c = '"' || c = ';')

/-- A symbol that round-trips: nonempty, made of plain characters, not the
quote item, not float-shaped, and not a `#t`/`#f`/`nil` literal. -/
def good_symbol (s : String) : Bool :=
  s.length != 0 && s.data.all plainChar && s != "'" && (parseF64 s).isNone &&
    s != "#t" && s != "#f" && s != "nil"

/-- A string literal that round-trips: no `"` (ends the token early) and no
`\` (swallowed by the tokenizer's escape handling). -/
def good_str (s : String) : Bool :=
  s.data.all (fun c => !(c = '"' || c = '\\'))

mutual
/-- The round-trippable class of claim C9. -/
def isGood : Value → Bool
  | .Symbol s => good_symbol s
  | .Str s => good_str s
  | .Bool _ => true
  | .Nil => true
  | .List l => goodList l
  | _ => false

/-- `isGood` on every element. -/
def goodList : List Value → Bool
  | [] => true
  | v :: vs => isGood v && goodList vs
end

mutual
/-- The token stream a good value's serialized text tokenizes to. -/
def tokensOf : Value → List Token
  | .Symbol s => [.Item s]
  | .Str s => [.Item (String.mk ('"' :: s.data ++ ['"']))]
  | .Bool true => [.Item "#t"]
  | .Bool false => [.Item "#f"]
  | .Nil => [.Item "nil"]
  | .List l => .LeftParen :: (tokensOfList l ++ [.RightParen])
  | _ => []

/-- Concatenated token streams of a list's elements. -/
def tokensOfList : List Value → List Token
  | [] => []
  | v :: vs => tokensOf v ++ tokensOfList vs
end

/-- The pending (unflushed) item after the tokenizer scans a good value's
text: the text itself for bare atoms, nothing for strings and lists (their
last character flushes). -/
def pendingOf : Value → List Char
  | .Symbol s => s.data
  | .Bool true => "#t".data
  | .Bool false => "#f".data
  | .Nil => "nil".data
  | _ => []

/-- The tokens already emitted after the tokenizer scans a good value's text. -/
def emittedOf : Value → List Token
  | .Str s => [.Item (String.mk ('"' :: s.data ++ ['"']))]
  | .List l => .LeftParen :: (tokensOfList l ++ [.RightParen])
  | _ => []

/-- A concrete member of the round-trippable class. -/
def good_example : Value :=
  .List [.Symbol "foo", .Str "bar baz", .Bool true, .Nil, .List []]

/-! ## Supporting lemmas -/

/-- `bind_loop` on a non-variadic parameter list of matching length is the
plain positional fold, with no panic and no arity error. -/
theorem bind_loop_nonvariadic :
    ∀ (ps : List String) (vs : List Value) (acc : List (String × Value)),
      ps.contains "." = false → vs.length = ps.length →
      bind_loop ps vs acc =
        .ok ((ps.zip vs).foldl (fun a pv => insertVar a pv.1 pv.2) acc)
  | [], vs, acc, _, hlen => by
    cases vs with
    | nil => simp [bind_loop]
    | cons v vs => simp at hlen
  | p :: ps, vs, acc, hc, hlen => by
    cases vs with
    | nil => simp at hlen
    | cons v vs =>
      simp only [List.contains_cons, Bool.or_eq_false_iff, beq_eq_false_iff_ne] at hc
      have hp : p ≠ "." := fun h => hc.1 h.symm
      simp only [bind_loop, if_neg hp]
      rw [bind_loop_nonvariadic ps vs _ (by simpa using hc.2) (by simpa using hlen)]
      simp [List.zip_cons_cons]

/-- With fewer arguments than parameters before the `"."` sentinel, the
binding loop hits `args.remove(0)` on an empty vector: a panic. -/
theorem bind_loop_short :
    ∀ (ps : List String) (vs : List Value) (acc : List (String × Value)),
      vs.length < (ps.takeWhile (fun q => q != ".")).length →
      bind_loop ps vs acc = .error .panicked
  | [], _, _, h => by simp [List.takeWhile] at h
  | p :: ps, vs, acc, h => by
    by_cases hp : p = "."
    · subst hp; simp [List.takeWhile_cons] at h
    · have hpb : (p != ".") = true := by simpa using hp
      rw [List.takeWhile_cons, if_pos hpb] at h
      cases vs with
      | nil => simp [bind_loop, if_neg hp]
      | cons v vs =>
        simp only [bind_loop, if_neg hp]
        exact bind_loop_short ps vs _ (by simpa using h)

/-- An all-numeric list passes `math`'s type-check loop. -/
theorem check_numeric_ok (op : String) :
    ∀ (vs : List Value), vs.all is_number = true → check_numeric op vs = .ok ()
  | [], _ => rfl
  | v :: vs, h => by
    simp only [List.all_cons, Bool.and_eq_true] at h
    cases v with
    | Integer n => exact check_numeric_ok op vs h.2
    | Float f => exact check_numeric_ok op vs h.2
    | _ => simp [is_number] at h

/-- `Except` bind on a success reduces to the continuation. -/
theorem except_bind_ok {α β ε : Type} (a : α) (f : α → Except ε β) :
    (Except.ok a : Except ε α) >>= f = f a := rfl

/-! ## Claims -/

/-- C1 (code exhibit): `Value::to_bool` as written makes the empty list truthy
and a non-empty list falsy (`l.is_empty()` with no negation), contradicting the
claim, the spec, and the function's own doc comment; `Nil`, `Integer 0` and
`Float 0.0` are falsy as claimed, and `(not 0)` evaluates to `#t`. -/
theorem claim_C1 :
    to_bool (.List []) = true ∧
    to_bool (.List [.Integer 1]) = false ∧
    to_bool .Nil = false ∧
    to_bool (.Integer 0) = false ∧
    to_bool (.Float (.finite 0)) = false ∧
    to_bool (.Integer 3) = true ∧
    to_bool (.Bool false) = false ∧
    to_bool (.Symbol "s") = true ∧
    to_bool (.Str "") = true ∧
    eval 10 (.List [.Symbol "not", .Integer 0]) root_env =
      .ok (.Bool true, root_env) :=
  ⟨rfl, rfl, rfl, rfl, rfl, rfl, rfl, rfl, rfl, rfl⟩

/-- C2: environment lookup never fails — `Env::get` returns the first binding
found walking from the local frame outward through parents, and falls back to
a `Str` holding the looked-up name itself when no frame in the chain binds it. -/
theorem claim_C2 :
    ∀ (e : Env) (n : String), Env.get e n = (chain_lookup e n).getD (.Str n)
  | .mk vs none, n => by
    simp only [Env.get, chain_lookup]
    cases vs.lookup n <;> simp
  | .mk vs (some p), n => by
    have ih := claim_C2 p n
    simp only [Env.get, chain_lookup]
    cases vs.lookup n <;> simp [ih]

/-- C3: closure application is lexically scoped.  For every evaluator, closure,
and matching non-variadic argument list, `LispProc::call` evaluates the body in
a newly created child environment holding the positional bindings whose parent
is the closure's captured environment (the caller's environment does not even
reach `call`); hence the concrete scenario — a closure over `x` created in
scope A (`x := 1`), invoked from scope B which rebinds `x := 2` — yields A's
binding, `Integer 1`. -/
theorem claim_C3 :
    (∀ (ev : Ev) (p : LispProc) (name : String) (args : List Value),
      p.params.contains "." = false →
      args.length = p.params.length →
      LispProc.call ev p name args =
        (ev p.body (.mk (bind_positional p.params args) (some p.env))).map
          (fun r => r.1)) ∧
    eval 10 (.List [.Symbol "f", .Integer 0]) scopeB = .ok (.Integer 1, scopeB) := by
  constructor
  · intro ev p name args hc hlen
    have hnc : ¬(¬p.params.contains "." ∧ args.length ≠ p.params.length) := by
      intro h
      exact h.2 hlen
    simp only [LispProc.call, if_neg hnc]
    rw [bind_loop_nonvariadic p.params args [] hc hlen]
    rfl
  · rfl

/-- C3 witness: the general part applied to the concrete scenario closure. -/
theorem claim_C3_witness :
    LispProc.call (eval 3) cloA "f" [.Integer 0] =
      (eval 3 (LispProc.body cloA)
        (.mk (bind_positional (LispProc.params cloA) [.Integer 0])
          (some (LispProc.env cloA)))).map (fun r => r.1) :=
  claim_C3.1 (eval 3) cloA "f" [.Integer 0] rfl rfl

/-- C4: `if` evaluates only its condition and then exactly one branch — the
result with a truthy condition is the consequent's evaluation and is unchanged
under ANY replacement of the alternate (and symmetrically for a falsy
condition); concretely, `(if #t 1 (undefined-proc))` evaluates to `Integer 1`
even though its alternate branch alone evaluates to an UncallableValue error. -/
theorem claim_C4 :
    (∀ (ev : Ev) (env env1 : Env) (c a b b2 v : Value),
      ev c env = .ok (v, env1) → to_bool v = true →
      if_else ev [c, a, b] env = ev a env1 ∧
      if_else ev [c, a, b2] env = ev a env1) ∧
    (∀ (ev : Ev) (env env1 : Env) (c a a2 b v : Value),
      ev c env = .ok (v, env1) → to_bool v = false →
      if_else ev [c, a, b] env = ev b env1 ∧
      if_else ev [c, a2, b] env = ev b env1) ∧
    eval 10 if_example root_env = .ok (.Integer 1, root_env) ∧
    eval 10 (.List [.Symbol "undefined-proc"]) root_env =
      .error (.run (.UncallableValue "undefined-proc" "Str")) := by
  refine ⟨?_, ?_, rfl, rfl⟩
  · intro ev env env1 c a b b2 v hc ht
    constructor <;> simp [if_else, check_num_args, hc, ht, Bind.bind, Except.bind]
  · intro ev env env1 c a a2 b v hc ht
    constructor <;> simp [if_else, check_num_args, hc, ht, Bind.bind, Except.bind]

/-- C4 witness: the truthy part at a concrete condition and branches. -/
theorem claim_C4_witness :
    if_else (eval 2) [.Bool true, .Integer 7, .Integer 8] root_env =
      eval 2 (.Integer 7) root_env :=
  (claim_C4.1 (eval 2) root_env root_env (.Bool true) (.Integer 7) (.Integer 8)
    (.Integer 9) (.Bool true) rfl rfl).1

/-- C5 (amended): for `+ - * /` with at least two arguments all evaluating to
numbers, `math` left-folds the corresponding binary `Value` operation (with
mixed Integer/Float pairs widening to Float) from the first operand; the
`modulo` arm instead applies `%` to the first two operands only, ignoring any
further ones.  Concretely, `(+ 1 2.0)` is `Float 3.0` and `(+ 1 2)` is
`Integer 3`. -/
theorem claim_C5 :
    (∀ (ev : Ev) (op : String) (args : List Value) (env env1 : Env)
       (init : Value) (rest : List Value),
      (op = "+" ∨ op = "-" ∨ op = "*" ∨ op = "/") →
      2 ≤ args.length →
      eval_list ev args env = .ok (init :: rest, env1) →
      (init :: rest).all is_number = true →
      math ev op args env = (fold_arith op init rest).map (fun v => (v, env1))) ∧
    (∀ (ev : Ev) (args : List Value) (env env1 : Env) (v0 v1 : Value)
       (more : List Value),
      2 ≤ args.length →
      eval_list ev args env = .ok (v0 :: v1 :: more, env1) →
      (v0 :: v1 :: more).all is_number = true →
      math ev "%" args env = (Value.vrem v0 v1).map (fun v => (v, env1))) ∧
    eval 10 (.List [.Symbol "+", .Integer 1, .Float (.finite 2)]) root_env =
      .ok (.Float (.finite 3), root_env) ∧
    eval 10 (.List [.Symbol "+", .Integer 1, .Integer 2]) root_env =
      .ok (.Integer 3, root_env) := by
  refine ⟨?_, ?_, ?_, rfl⟩
  · intro ev op args env env1 init rest hop hlen hev hnum
    have hlen2 : ¬args.length < 2 := by omega
    simp only [math, if_neg hlen2, hev, check_numeric_ok op _ hnum,
      Bind.bind, Except.bind, fold_arith, arith_bin]
    rcases hop with h | h | h | h <;> subst h <;> simp
  · intro ev args env env1 v0 v1 more hlen hev hnum
    have hlen2 : ¬args.length < 2 := by omega
    simp only [math, if_neg hlen2, hev, check_numeric_ok "%" _ hnum,
      Bind.bind, Except.bind]
    simp
  · have h : eval 10 (.List [.Symbol "+", .Integer 1, .Float (.finite 2)]) root_env =
        .ok (.Float (.finite ((1 : ℚ) + 2)), root_env) := rfl
    rw [h]
    norm_num

/-- C5 witness: the fold equation applied to `(+ 1 2)`'s evaluated operands. -/
theorem claim_C5_witness :
    math (eval 3) "+" [.Integer 1, .Integer 2] root_env =
      (fold_arith "+" (.Integer 1) [.Integer 2]).map (fun v => (v, root_env)) :=
  claim_C5.1 (eval 3) "+" [.Integer 1, .Integer 2] root_env root_env
    (.Integer 1) [.Integer 2] (Or.inl rfl) (by decide) rfl rfl

/-- C5 counterexample: `(modulo 10 7 2)` evaluates to `Integer 3` (the third
operand is ignored), while the left-fold the claim demands yields `Integer 1`. -/
theorem claim_C5_cex :
    eval 10 (.List [.Symbol "modulo", .Integer 10, .Integer 7, .Integer 2])
      root_env = .ok (.Integer 3, root_env) ∧
    fold_arith "%" (.Integer 10) [.Integer 7, .Integer 2] = .ok (.Integer 1) ∧
    (Value.Integer 3 : Value) ≠ .Integer 1 :=
  ⟨rfl, rfl, fun h => by cases h⟩

/-- `get!` at literal indices of a cons list. -/
theorem get_bang_zero (a : Value) (l : List Value) : (a :: l).get! 0 = a := rfl

/-- `get!` at index one. -/
theorem get_bang_one (a b : Value) (l : List Value) : (a :: b :: l).get! 1 = b := rfl

/-- C6 (amended): `list-ref` is 1-based — with arguments evaluating to a list
`l` and an in-range (`i64`-sized) Integer `i`, index `1 ≤ i ≤ n` returns the
`i`-th element and index `0` or `i > n` fails with `IndexOutOfBounds`
(`idx as usize - 1` wraps for `i = 0`, far past any list's end); concretely
`(list-ref (quote (10 20 30)) 2)` yields `Integer 20` (there is no `list`
builtin — see the counterexample). -/
theorem claim_C6 :
    (∀ (ev : Ev) (args : List Value) (env env1 : Env) (l : List Value) (i : Int),
      eval_list ev args env = .ok ([.List l, .Integer i], env1) →
      args.length = 2 →
      (l.length : Int) < 2 ^ 63 → i < 2 ^ 63 →
      ((∀ w, 1 ≤ i → i ≤ l.length → l.get? (i.toNat - 1) = some w →
        list_ref ev args env = .ok (w, env1)) ∧
       ((i = 0 ∨ (l.length : Int) < i) →
        list_ref ev args env =
          .error (.run (.IndexOutOfBounds (usize_of_i64 i)))))) ∧
    eval 10 (.List [.Symbol "list-ref",
      .List [.Symbol "quote", .List [.Integer 10, .Integer 20, .Integer 30]],
      .Integer 2]) root_env = .ok (.Integer 20, root_env) := by
  refine ⟨?_, rfl⟩
  intro ev args env env1 l i hev hargs hllen hi
  have hnot2 : ¬args.length ≠ 2 := by omega
  constructor
  · intro w h1 h2 hw
    have hm : i % 2 ^ 64 = i := by omega
    have hidx : usize_sub_one (usize_of_i64 i) = i.toNat - 1 := by
      unfold usize_of_i64 usize_sub_one
      rw [hm]
      omega
    simp only [list_ref, check_num_args, if_neg hnot2, hev, Bind.bind, Except.bind,
      get_bang_zero, get_bang_one, extractList, extractInteger, hidx, hw]
  · intro hcase
    have hm : i % 2 ^ 64 = i := by
      rcases hcase with h | h
      · omega
      · have : (0 : Int) ≤ l.length := by positivity
        omega
    have hnone : l.get? (usize_sub_one (usize_of_i64 i)) = none := by
      apply List.get?_eq_none.mpr
      unfold usize_of_i64 usize_sub_one
      rw [hm]
      rcases hcase with h | h
      · subst h
        simp
        omega
      · omega
    simp only [list_ref, check_num_args, if_neg hnot2, hev, Bind.bind, Except.bind,
      get_bang_zero, get_bang_one, extractList, extractInteger, hnone]

/-- C6 witness: the in-range equation at `(quote (10))`, index 1. -/
theorem claim_C6_witness :
    list_ref (eval 5) [.List [.Symbol "quote", .List [.Integer 10]], .Integer 1]
      root_env = .ok (.Integer 10, root_env) :=
  ((claim_C6.1 (eval 5) [.List [.Symbol "quote", .List [.Integer 10]], .Integer 1]
      root_env root_env [.Integer 10] 1 rfl rfl (by decide) (by decide)).1
    (.Integer 10) (by decide) (by decide) rfl)

/-- C6 counterexample: the claim's own example `(list-ref (list 10 20 30) 2)`
does not yield 20 — there is no `list` builtin, so `list` resolves (through the
string fallback) to an uncallable `Str` and the call errors. -/
theorem claim_C6_cex :
    eval 10 (.List [.Symbol "list-ref",
      .List [.Symbol "list", .Integer 10, .Integer 20, .Integer 30],
      .Integer 2]) root_env =
      .error (.run (.UncallableValue "list" "Str")) := rfl

/-- C7 (code exhibit): atomization tries the quoted-string form first, but its
numeric branch parses every float-shaped token with `parse::<f64>()` and wraps
the result in a `Number` constructor absent from the `Value` enum (read here as
`Float`, the payload's type) — so the integer token `3` never becomes
`Integer 3`, contradicting the claimed `i64`-then-`f64` order.  The remaining
branches (`#t`/`#f`, `nil`, `Symbol`) are as claimed. -/
theorem claim_C7 :
    atomize "3" = .Float (.finite 3) ∧
    atomize "3" ≠ .Integer 3 ∧
    atomize "2.5" = .Float (.finite (mkRat 25 10)) ∧
    mkRat 25 10 = (5 / 2 : ℚ) ∧
    atomize "\"hi\"" = .Str "hi" ∧
    atomize "#t" = .Bool true ∧
    atomize "#f" = .Bool false ∧
    atomize "nil" = .Nil ∧
    atomize "abc" = .Symbol "abc" := by
  refine ⟨rfl, ?_, rfl, ?_, rfl, rfl, rfl, rfl, rfl⟩
  · intro h
    cases h
  · norm_num [Rat.mkRat_eq_div]

/-- C10: a variadic parameter list (containing the `"."` sentinel) makes
`LispProc::call` skip the arity check entirely — the call goes straight to the
binding loop — and calling with fewer arguments than there are parameters
before the sentinel panics (the `args.remove(0)` of an empty vector) instead of
returning WrongNumArgs; the arity check (hence its WrongNumArgs error) is
reached only for non-variadic parameter lists. -/
theorem claim_C10 :
    ∀ (ev : Ev) (p : LispProc) (name : String) (args : List Value),
      p.params.contains "." = true →
      (LispProc.call ev p name args =
        match bind_loop p.params args [] with
        | .error e => .error e
        | .ok vars => (ev p.body (.mk vars (some p.env))).map (fun r => r.1)) ∧
      (args.length < (p.params.takeWhile (fun q => q != ".")).length →
        LispProc.call ev p name args = .error .panicked) := by
  intro ev p name args hc
  have hskip : ¬(¬p.params.contains "." ∧ args.length ≠ p.params.length) :=
    fun h => h.1 hc
  constructor
  · simp only [LispProc.call, if_neg hskip]
  · intro hshort
    simp only [LispProc.call, if_neg hskip, bind_loop_short p.params args [] hshort]

/-- C10 witness: `(lambda (a . r) r)` called with no arguments panics. -/
theorem claim_C10_witness :
    LispProc.call (eval 5) cloVar "pv" [] = .error .panicked :=
  (claim_C10 (eval 5) cloVar "pv" [] rfl).2 (by decide)

mutual
/-- The only `ParseError`s `from_tokens` ever constructs are
`ErroneousToken(")")` and `ErroneousToken("'")` — never `Empty` or
`MismatchedParens`. -/
theorem from_tokens_err :
    ∀ (fuel : Nat) (ts : List Token) (e : ParseError),
      from_tokens fuel ts = .err e →
      e = .ErroneousToken ")" ∨ e = .ErroneousToken "'"
  | 0, ts, e, h => by simp [from_tokens] at h
  | fuel + 1, [], e, h => by simp [from_tokens] at h
  | fuel + 1, .RightParen :: rest, e, h => by
    simp only [from_tokens, PRes.err.injEq] at h
    exact Or.inl h.symm
  | fuel + 1, .LeftParen :: rest, e, h => by
    simp only [from_tokens] at h
    split at h
    · exact absurd h (by simp)
    · exact parse_list_err fuel rest [] e h
  | fuel + 1, .Item s :: rest, e, h => by
    simp only [from_tokens] at h
    split at h
    · split at h
      · exact absurd h (by simp)
      · split at h
        · exact absurd h (by simp)
        · exact parse_list_err fuel _ [] e h
      · simp only [PRes.err.injEq] at h
        exact Or.inr h.symm
    · exact absurd h (by simp)

/-- `parse_list` companion of `from_tokens_err`. -/
theorem parse_list_err :
    ∀ (fuel : Nat) (ts : List Token) (acc : List Value) (e : ParseError),
      parse_list fuel ts acc = .err e →
      e = .ErroneousToken ")" ∨ e = .ErroneousToken "'"
  | 0, ts, acc, e, h => by simp [parse_list] at h
  | fuel + 1, [], acc, e, h => by simp [parse_list] at h
  | fuel + 1, .RightParen :: rest, acc, e, h => by simp [parse_list] at h
  | fuel + 1, .LeftParen :: rest, acc, e, h => by
    simp only [parse_list] at h
    split at h
    · split at h
      · exact absurd h (by simp)
      · exact parse_list_err fuel _ _ e h
    · exact from_tokens_err fuel _ e h
  | fuel + 1, .Item s :: rest, acc, e, h => by
    simp only [parse_list] at h
    split at h
    · split at h
      · exact absurd h (by simp)
      · exact parse_list_err fuel _ _ e h
    · exact from_tokens_err fuel _ e h
end

mutual
/-- Fuel `2·|ts| + 1` lets `from_tokens` finish, and a success consumes at
least one token. -/
theorem from_tokens_fuel :
    ∀ (fuel : Nat) (ts : List Token),
      2 * ts.length + 1 ≤ fuel →
      from_tokens fuel ts ≠ .noFuel ∧
        ∀ v r, from_tokens fuel ts = .ok v r → r.length < ts.length
  | 0, ts, hf => by omega
  | fuel + 1, [], _ => by
    constructor
    · simp [from_tokens]
    · intro v r h
      simp [from_tokens] at h
  | fuel + 1, .RightParen :: rest, _ => by
    constructor
    · simp [from_tokens]
    · intro v r h
      simp [from_tokens] at h
  | fuel + 1, .LeftParen :: rest, hf => by
    have hp := parse_list_fuel fuel rest [] (by simp at hf ⊢; omega)
    cases hres : parse_list fuel rest [] with
    | ok v r =>
      have hr := hp.2 v r hres
      constructor
      · simp [from_tokens, hres]
      · intro v2 r2 h
        simp only [from_tokens, hres] at h
        simp only [PRes.ok.injEq] at h
        simp [← h.2]
        omega
    | err e => constructor <;> simp [from_tokens, hres]
    | panicked => constructor <;> simp [from_tokens, hres]
    | noFuel => exact absurd hres hp.1
  | fuel + 1, .Item s :: rest, hf => by
    by_cases hs : s = "'"
    · cases rest with
      | nil => constructor <;> simp [from_tokens, hs]
      | cons t r2 =>
        cases t with
        | LeftParen =>
          have hp := parse_list_fuel fuel r2 [] (by simp at hf ⊢; omega)
          cases hres : parse_list fuel r2 [] with
          | ok v r =>
            have hr := hp.2 v r hres
            constructor
            · simp [from_tokens, hs, hres]
            · intro v2 rr h
              simp only [from_tokens, if_pos hs, hres] at h
              simp only [PRes.ok.injEq] at h
              simp [← h.2]
              omega
          | err e => constructor <;> simp [from_tokens, hs, hres]
          | panicked => constructor <;> simp [from_tokens, hs, hres]
          | noFuel => exact absurd hres hp.1
        | RightParen => constructor <;> simp [from_tokens, hs]
        | Item s2 => constructor <;> simp [from_tokens, hs]
    · constructor
      · simp [from_tokens, hs]
      · intro v r h
        simp only [from_tokens, if_neg hs, PRes.ok.injEq] at h
        simp [← h.2]

/-- Fuel `2·|ts| + 2` lets `parse_list` finish, and a success consumes at
least one token (the closing right paren). -/
theorem parse_list_fuel :
    ∀ (fuel : Nat) (ts : List Token) (acc : List Value),
      2 * ts.length + 2 ≤ fuel →
      parse_list fuel ts acc ≠ .noFuel ∧
        ∀ v r, parse_list fuel ts acc = .ok v r → r.length < ts.length
  | 0, ts, acc, hf => by omega
  | fuel + 1, [], acc, _ => by
    constructor
    · simp [parse_list]
    · intro v r h
      simp [parse_list] at h
  | fuel + 1, .RightParen :: rest, acc, _ => by
    constructor
    · simp [parse_list]
    · intro v r h
      simp only [parse_list, PRes.ok.injEq] at h
      simp [← h.2]
  | fuel + 1, .LeftParen :: rest, acc, hf => by
    have hft := from_tokens_fuel fuel (.LeftParen :: rest) (by omega)
    cases hres : from_tokens fuel (.LeftParen :: rest) with
    | ok v r =>
      have hr := hft.2 v r hres
      have hp := parse_list_fuel fuel r (acc ++ [v])
        (by simp only [List.length_cons] at hr hf ⊢; omega)
      cases hres2 : parse_list fuel r (acc ++ [v]) with
      | ok w r2 =>
        have hr2 := hp.2 w r2 hres2
        constructor
        · simp [parse_list, hres, hres2]
        · intro v3 r3 h
          simp only [parse_list, hres, hres2, PRes.ok.injEq] at h
          have : r3 = r2 := h.2.symm
          subst this
          omega
      | err e => constructor <;> simp [parse_list, hres, hres2]
      | panicked => constructor <;> simp [parse_list, hres, hres2]
      | noFuel => exact absurd hres2 hp.1
    | err e => constructor <;> simp [parse_list, hres]
    | panicked => constructor <;> simp [parse_list, hres]
    | noFuel => exact absurd hres hft.1
  | fuel + 1, .Item s :: rest, acc, hf => by
    have hft := from_tokens_fuel fuel (.Item s :: rest) (by omega)
    cases hres : from_tokens fuel (.Item s :: rest) with
    | ok v r =>
      have hr := hft.2 v r hres
      have hp := parse_list_fuel fuel r (acc ++ [v])
        (by simp only [List.length_cons] at hr hf ⊢; omega)
      cases hres2 : parse_list fuel r (acc ++ [v]) with
      | ok w r2 =>
        have hr2 := hp.2 w r2 hres2
        constructor
        · simp [parse_list, hres, hres2]
        · intro v3 r3 h
          simp only [parse_list, hres, hres2, PRes.ok.injEq] at h
          have : r3 = r2 := h.2.symm
          subst this
          omega
      | err e => constructor <;> simp [parse_list, hres, hres2]
      | panicked => constructor <;> simp [parse_list, hres, hres2]
      | noFuel => exact absurd hres2 hp.1
    | err e => constructor <;> simp [parse_list, hres]
    | panicked => constructor <;> simp [parse_list, hres]
    | noFuel => exact absurd hres hft.1
end

/-- Exhaustive characterization of `Value::new`'s outcome: `Empty` exactly on
an empty token stream; `MismatchedParens` exactly on unequal paren counts;
otherwise a built value, an `ErroneousToken(")")`/`ErroneousToken("'")`, or a
panic — never a fuel exhaustion. -/
theorem value_new_cases (s : String) :
    (tokenize s = [] ∧ Value.new s = .perr .Empty) ∨
    (tokenize s ≠ [] ∧
      (tokenize s).count Token.LeftParen ≠ (tokenize s).count Token.RightParen ∧
      Value.new s = .perr .MismatchedParens) ∨
    (tokenize s ≠ [] ∧
      (tokenize s).count Token.LeftParen = (tokenize s).count Token.RightParen ∧
      ((∃ v, Value.new s = .ok v) ∨
       (∃ t, (t = ")" ∨ t = "'") ∧ Value.new s = .perr (.ErroneousToken t)) ∨
       Value.new s = .panicked)) := by
  by_cases he : tokenize s = []
  · exact Or.inl ⟨he, by simp [Value.new, he]⟩
  · have hne : (tokenize s).isEmpty = false := by
      simpa [List.isEmpty_iff] using he
    by_cases hc : (tokenize s).count Token.LeftParen =
        (tokenize s).count Token.RightParen
    · refine Or.inr (Or.inr ⟨he, hc, ?_⟩)
      cases hres : from_tokens (2 * (tokenize s).length + 2) (tokenize s) with
      | ok v r => exact Or.inl ⟨v, by simp [Value.new, hne, hc, hres]⟩
      | err e =>
        rcases from_tokens_err _ _ _ hres with h | h <;> subst h
        · exact Or.inr (Or.inl ⟨")", Or.inl rfl, by simp [Value.new, hne, hc, hres]⟩)
        · exact Or.inr (Or.inl ⟨"'", Or.inr rfl, by simp [Value.new, hne, hc, hres]⟩)
      | panicked => exact Or.inr (Or.inr (by simp [Value.new, hne, hc, hres]))
      | noFuel => exact absurd hres (from_tokens_fuel _ _ (by omega)).1
    · exact Or.inr (Or.inl ⟨he, hc, by simp [Value.new, hne, hc]⟩)

/-- C8 (amended): parsing yields `Empty` exactly when the token stream is
empty; `MismatchedParens` exactly when the stream is nonempty with unequal
paren counts; every `ErroneousToken(t)` carries `)` (a stray right paren) or
`'` (a quote item not followed by a left paren); the embedding's fuel never
runs out; and — the correction — a quote item that ends the token stream is an
out-of-bounds `Vec::remove` (a panic), not an error: input `'` panics. -/
theorem claim_C8 :
    (∀ s, Value.new s = .perr .Empty ↔ tokenize s = []) ∧
    (∀ s, Value.new s = .perr .MismatchedParens ↔
      (tokenize s ≠ [] ∧
        (tokenize s).count Token.LeftParen ≠
          (tokenize s).count Token.RightParen)) ∧
    (∀ s t, Value.new s = .perr (.ErroneousToken t) → t = ")" ∨ t = "'") ∧
    (∀ s, Value.new s ≠ .noFuel) ∧
    Value.new "'" = .panicked := by
  refine ⟨?_, ?_, ?_, ?_, rfl⟩
  · intro s
    rcases value_new_cases s with ⟨he, hn⟩ | ⟨he, hc, hn⟩ |
        ⟨he, hc, ⟨v, hn⟩ | ⟨t, ht, hn⟩ | hn⟩ <;> simp_all
  · intro s
    rcases value_new_cases s with ⟨he, hn⟩ | ⟨he, hc, hn⟩ |
        ⟨he, hc, ⟨v, hn⟩ | ⟨t, ht, hn⟩ | hn⟩ <;> simp_all
  · intro s t h
    rcases value_new_cases s with ⟨he, hn⟩ | ⟨he, hc, hn⟩ |
        ⟨he, hc, ⟨v, hn⟩ | ⟨t2, ht2, hn⟩ | hn⟩ <;> rw [hn] at h <;>
      simp_all
  · intro s
    rcases value_new_cases s with ⟨he, hn⟩ | ⟨he, hc, hn⟩ |
        ⟨he, hc, ⟨v, hn⟩ | ⟨t2, ht2, hn⟩ | hn⟩ <;> simp [hn]

/-- C8 witness: the error-token restriction applied to input `)(` (balanced
counts, stray leading right paren). -/
theorem claim_C8_witness :
    Value.new ")(" = .perr (.ErroneousToken ")") ∧
    (")" = ")" ∨ ")" = "'") :=
  ⟨rfl, claim_C8.2.2.1 ")(" ")" rfl⟩

/-- C8 counterexample: on input `'` (a quote item with nothing after it),
`Value::new` panics — `tokens.remove(0)` of an empty vector — which is neither
one of the three parse errors nor a successfully built value, refuting the
claim's "no other outcome" clause. -/
theorem claim_C8_cex : Value.new "'" = .panicked := rfl

/-- Scanning plain characters outside string mode accumulates them into the
pending item. -/
theorem scan_plain :
    ∀ (cs : List Char), cs.all plainChar = true →
      ∀ (rest : List Char) (item : List Char) (toks : List Token),
        tokenizeAux (cs ++ rest) item false false toks =
          tokenizeAux rest (item ++ cs) false false toks
  | [], _, rest, item, toks => by simp
  | c :: cs, h, rest, item, toks => by
    simp only [List.all_cons, Bool.and_eq_true] at h
    have hc := h.1
    simp only [plainChar, Bool.not_eq_true', Bool.or_eq_false_iff,
      decide_eq_false_iff_not] at hc
    obtain ⟨⟨⟨⟨h1, h2⟩, h3⟩, h4⟩, h5⟩ := hc
    simp only [List.cons_append, tokenizeAux, Bool.not_false, if_true,
      List.append_eq, h1, h2, h3, h4, h5, if_false]
    rw [scan_plain cs h.2 rest (item ++ [c]) toks]
    simp

/-- Scanning quote-free, backslash-free characters inside string mode
accumulates them into the pending item. -/
theorem scan_string :
    ∀ (cs : List Char), cs.all (fun c => !(c = '"' || c = '\\')) = true →
      ∀ (rest : List Char) (item : List Char) (toks : List Token),
        tokenizeAux (cs ++ rest) item false true toks =
          tokenizeAux rest (item ++ cs) false true toks
  | [], _, rest, item, toks => by simp
  | c :: cs, h, rest, item, toks => by
    simp only [List.all_cons, Bool.and_eq_true] at h
    have hc := h.1
    simp only [Bool.not_eq_true', Bool.or_eq_false_iff,
      decide_eq_false_iff_not] at hc
    simp only [List.cons_append, tokenizeAux, Bool.not_true, Bool.not_false,
      List.append_eq, hc.1, hc.2, if_false, if_true]
    rw [scan_string cs h.2 rest (item ++ [c]) toks]
    simp

/-- Flushing the pending item after a good value's text yields exactly its
token stream. -/
theorem flush_tokensOf :
    ∀ (v : Value), isGood v = true → ∀ (toks : List Token),
      push_item (pendingOf v) (toks ++ emittedOf v) = toks ++ tokensOf v
  | .Symbol s, hg, toks => by
    simp only [isGood, good_symbol, Bool.and_eq_true, bne_iff_ne, ne_eq] at hg
    have hne : s.data.length ≠ 0 := hg.1.1.1.1.1.1
    simp only [pendingOf, emittedOf, tokensOf, push_item, List.append_nil]
    rw [if_pos (by simpa using hne)]
  | .Str s, _, toks => by simp [pendingOf, emittedOf, tokensOf, push_item]
  | .Bool true, _, toks => by simp [pendingOf, emittedOf, tokensOf, push_item]
  | .Bool false, _, toks => by simp [pendingOf, emittedOf, tokensOf, push_item]
  | .Nil, _, toks => by simp [pendingOf, emittedOf, tokensOf, push_item]
  | .List l, _, toks => by simp [pendingOf, emittedOf, tokensOf, push_item]
  | .Integer n, hg, toks => by simp [isGood] at hg
  | .Float f, hg, toks => by simp [isGood] at hg
  | .Proc p, hg, toks => by simp [isGood] at hg

mutual
/-- Tokenizing a good value's serialized text (followed by anything) emits its
tokens, leaving its trailing atom text pending. -/
theorem tok_val :
    ∀ (v : Value), isGood v = true →
      ∀ (rest : List Char) (toks : List Token),
        tokenizeAux ((serialize v).data ++ rest) [] false false toks =
          tokenizeAux rest (pendingOf v) false false (toks ++ emittedOf v)
  | .Symbol s, hg, rest, toks => by
    simp only [isGood, good_symbol, Bool.and_eq_true] at hg
    rw [show (serialize (.Symbol s)).data = s.data from rfl]
    rw [scan_plain s.data hg.1.1.1.1.1.2 rest [] toks]
    simp [pendingOf, emittedOf]
  | .Str s, hg, rest, toks => by
    simp only [isGood] at hg
    have hd : (serialize (.Str s)).data ++ rest = '"' :: (s.data ++ ('"' :: rest)) := by
      show ("\"" ++ s ++ "\"").data ++ rest = _
      simp [String.data_append]
    rw [hd]
    rw [show tokenizeAux ('"' :: (s.data ++ ('"' :: rest))) [] false false toks =
        tokenizeAux (s.data ++ ('"' :: rest)) ['"'] false true toks
        from by simp [tokenizeAux]]
    rw [scan_string s.data hg ('"' :: rest) ['"'] toks]
    simp only [List.singleton_append]
    rw [show tokenizeAux ('"' :: rest) ('"' :: s.data) false true toks =
        tokenizeAux rest [] false false
          (push_item (('"' :: s.data) ++ ['"']) toks)
        from by simp [tokenizeAux]]
    simp [push_item, pendingOf, emittedOf]
  | .Bool true, _, rest, toks => by
    rw [show (serialize (.Bool true)).data = "#t".data from rfl]
    rw [scan_plain "#t".data (by decide) rest [] toks]
    simp [pendingOf, emittedOf]
  | .Bool false, _, rest, toks => by
    rw [show (serialize (.Bool false)).data = "#f".data from rfl]
    rw [scan_plain "#f".data (by decide) rest [] toks]
    simp [pendingOf, emittedOf]
  | .Nil, _, rest, toks => by
    rw [show (serialize .Nil).data = "nil".data from rfl]
    rw [scan_plain "nil".data (by decide) rest [] toks]
    simp [pendingOf, emittedOf]
  | .List l, hg, rest, toks => by
    simp only [isGood] at hg
    have hd : (serialize (.List l)).data ++ rest =
        '(' :: ((serialize_join l).data ++ (')' :: rest)) := by
      show ("(" ++ serialize_join l ++ ")").data ++ rest = _
      simp [String.data_append]
    rw [hd]
    rw [show tokenizeAux ('(' :: ((serialize_join l).data ++ (')' :: rest))) []
          false false toks =
        tokenizeAux ((serialize_join l).data ++ (')' :: rest)) [] false false
          (toks ++ [.LeftParen]) from by simp [tokenizeAux, push_item]]
    rw [tok_join l hg rest (toks ++ [Token.LeftParen])]
    simp [pendingOf, emittedOf]
  | .Integer n, hg, rest, toks => by simp [isGood] at hg
  | .Float f, hg, rest, toks => by simp [isGood] at hg
  | .Proc p, hg, rest, toks => by simp [isGood] at hg

/-- Tokenizing a space-joined element list followed by `)` emits the elements'
tokens and the closing right paren, with nothing pending. -/
theorem tok_join :
    ∀ (l : List Value), goodList l = true →
      ∀ (rest : List Char) (toks : List Token),
        tokenizeAux ((serialize_join l).data ++ (')' :: rest)) [] false false
            toks =
          tokenizeAux rest [] false false
            (toks ++ (tokensOfList l ++ [.RightParen]))
  | [], _, rest, toks => by
    simp [serialize_join, tokensOfList, tokenizeAux, push_item]
  | [v], hg, rest, toks => by
    simp only [goodList, Bool.and_eq_true] at hg
    rw [show serialize_join [v] = serialize v from rfl]
    rw [tok_val v hg.1 (')' :: rest) toks]
    rw [show tokenizeAux (')' :: rest) (pendingOf v) false false
          (toks ++ emittedOf v) =
        tokenizeAux rest [] false false
          (push_item (pendingOf v) (toks ++ emittedOf v) ++ [.RightParen])
        from by simp [tokenizeAux]]
    rw [flush_tokensOf v hg.1 toks]
    simp [tokensOfList]
  | v :: w :: vs, hg, rest, toks => by
    simp only [goodList, Bool.and_eq_true] at hg
    have hd : (serialize_join (v :: w :: vs)).data ++ (')' :: rest) =
        (serialize v).data ++ (' ' :: ((serialize_join (w :: vs)).data ++
          (')' :: rest))) := by
      show (serialize v ++ " " ++ serialize_join (w :: vs)).data ++ _ = _
      simp [String.data_append]
    rw [hd]
    rw [tok_val v hg.1 (' ' :: ((serialize_join (w :: vs)).data ++ (')' :: rest)))
      toks]
    rw [show tokenizeAux (' ' :: ((serialize_join (w :: vs)).data ++ (')' :: rest)))
          (pendingOf v) false false (toks ++ emittedOf v) =
        tokenizeAux ((serialize_join (w :: vs)).data ++ (')' :: rest)) [] false
          false (push_item (pendingOf v) (toks ++ emittedOf v))
        from by simp [tokenizeAux]]
    rw [flush_tokensOf v hg.1 toks]
    rw [tok_join (w :: vs) (by simp [goodList, hg.2.1, hg.2.2]) rest
      (toks ++ tokensOf v)]
    simp [tokensOfList]
end

/-- Tokenizing a good value's serialized text yields exactly its token stream. -/
theorem tokenize_serialize (v : Value) (hg : isGood v = true) :
    tokenize (serialize v) = tokensOf v := by
  rw [tokenize]
  rw [show (serialize v).data = (serialize v).data ++ [] from by simp]
  rw [tok_val v hg [] []]
  rw [show tokenizeAux [] (pendingOf v) false false ([] ++ emittedOf v) =
      push_item (pendingOf v) ([] ++ emittedOf v) from rfl]
  rw [flush_tokensOf v hg []]
  simp

mutual
/-- A good value's token stream has balanced paren counts. -/
theorem tokensOf_balanced :
    ∀ (v : Value), isGood v = true →
      (tokensOf v).count Token.LeftParen = (tokensOf v).count Token.RightParen
  | .Symbol s, _ => by simp [tokensOf, List.count_singleton]
  | .Str s, _ => by simp [tokensOf, List.count_singleton]
  | .Bool true, _ => by simp [tokensOf, List.count_singleton]
  | .Bool false, _ => by simp [tokensOf, List.count_singleton]
  | .Nil, _ => by simp [tokensOf, List.count_singleton]
  | .List l, hg => by
    have h := tokensOfList_balanced l (by simpa [isGood] using hg)
    simp [tokensOf, List.count_cons, List.count_append, h]
  | .Integer n, hg => by simp [isGood] at hg
  | .Float f, hg => by simp [isGood] at hg
  | .Proc p, hg => by simp [isGood] at hg

/-- Element lists keep balanced paren counts. -/
theorem tokensOfList_balanced :
    ∀ (l : List Value), goodList l = true →
      (tokensOfList l).count Token.LeftParen =
        (tokensOfList l).count Token.RightParen
  | [], _ => rfl
  | v :: vs, hg => by
    simp only [goodList, Bool.and_eq_true] at hg
    have h1 := tokensOf_balanced v hg.1
    have h2 := tokensOfList_balanced vs hg.2
    simp [tokensOfList, List.count_append, h1, h2]
end

/-- A good symbol atomizes back to itself. -/
theorem atomize_good_symbol (s : String) (hg : good_symbol s = true) :
    atomize s = .Symbol s := by
  simp only [good_symbol, Bool.and_eq_true, bne_iff_ne, ne_eq] at hg
  obtain ⟨⟨⟨⟨⟨⟨hlen, hplain⟩, hq⟩, hf⟩, ht⟩, hf2⟩, hn⟩ := hg
  have hhead : ¬(s.data.head? = some '"' ∧ s.data.getLast? = some '"' ∧
      1 < s.length) := by
    intro ⟨hh, _⟩
    cases hd : s.data with
    | nil => rw [hd] at hh; cases hh
    | cons c cs =>
      rw [hd] at hh
      simp only [List.head?_cons, Option.some.injEq] at hh
      subst hh
      rw [hd] at hplain
      simp [plainChar] at hplain
  rw [atomize, if_neg hhead]
  rw [Option.isNone_iff_eq_none.mp hf]
  simp [ht, hf2, hn]

/-- A good string's quoted token atomizes back to the string. -/
theorem atomize_good_str (s : String) :
    atomize (String.mk ('"' :: s.data ++ ['"'])) = .Str s := by
  have hcond : (String.mk ('"' :: s.data ++ ['"'])).data.head? = some '"' ∧
      (String.mk ('"' :: s.data ++ ['"'])).data.getLast? = some '"' ∧
      1 < (String.mk ('"' :: s.data ++ ['"'])).length := by
    refine ⟨rfl, ?_, ?_⟩
    · show ('"' :: s.data ++ ['"']).getLast? = some '"'
      rw [show '"' :: s.data ++ ['"'] = ('"' :: s.data) ++ ['"'] from rfl]
      exact List.getLast?_concat _
    · show 1 < ('"' :: s.data ++ ['"']).length
      simp
  rw [atomize, if_pos hcond]
  show Value.Str (String.mk (('"' :: s.data ++ ['"']).drop 1).dropLast) = _
  rw [show ('"' :: s.data ++ ['"']).drop 1 = s.data ++ ['"'] from rfl]
  rw [List.dropLast_concat]

/-- A good value's token stream starts with a non-right-paren token. -/
theorem tokensOf_shape :
    ∀ (v : Value), isGood v = true →
      ∃ t ts', tokensOf v = t :: ts' ∧ t ≠ Token.RightParen
  | .Symbol s, _ => ⟨.Item s, [], rfl, by simp⟩
  | .Str s, _ => ⟨.Item (String.mk ('"' :: s.data ++ ['"'])), [], rfl, by simp⟩
  | .Bool true, _ => ⟨.Item "#t", [], rfl, by simp⟩
  | .Bool false, _ => ⟨.Item "#f", [], rfl, by simp⟩
  | .Nil, _ => ⟨.Item "nil", [], rfl, by simp⟩
  | .List l, _ =>
    ⟨Token.LeftParen, tokensOfList l ++ [Token.RightParen], rfl, by simp⟩
  | .Integer n, hg => by simp [isGood] at hg
  | .Float f, hg => by simp [isGood] at hg
  | .Proc p, hg => by simp [isGood] at hg

/-- One step of `parse_list` on a non-right-paren head. -/
theorem parse_list_step (fuel : Nat) (t : Token) (ts : List Token)
    (acc : List Value) (ht : t ≠ Token.RightParen) :
    parse_list (fuel + 1) (t :: ts) acc =
      (match from_tokens fuel (t :: ts) with
       | .ok v r =>
         (match parse_list fuel r (acc ++ [v]) with
          | .ok w r2 => .ok w r2
          | other => other)
       | other => other) := by
  cases t with
  | LeftParen => rfl
  | RightParen => exact absurd rfl ht
  | Item s => rfl

mutual
/-- `from_tokens` inverts serialization at the token level: a good value's
token stream (followed by anything) parses back to the value. -/
theorem parse_tokensOf :
    ∀ (v : Value), isGood v = true →
      ∀ (fuel : Nat) (rest : List Token),
        2 * (tokensOf v).length ≤ fuel →
        from_tokens fuel (tokensOf v ++ rest) = .ok v rest
  | .Symbol s, hg, fuel, rest, hf => by
    match fuel, hf with
    | fuel + 1, _ =>
      have hq : s ≠ "'" := by
        simp only [isGood, good_symbol, Bool.and_eq_true, bne_iff_ne, ne_eq] at hg
        exact hg.1.1.1.1.2
      show from_tokens (fuel + 1) (.Item s :: rest) = _
      simp only [from_tokens, if_neg hq]
      rw [atomize_good_symbol s (by simpa [isGood] using hg)]
  | .Str s, hg, fuel, rest, hf => by
    match fuel, hf with
    | fuel + 1, _ =>
      have hq : String.mk ('"' :: s.data ++ ['"']) ≠ "'" := by
        intro heq
        have hh : (String.mk ('"' :: s.data ++ ['"'])).data.head? = some '"' := rfl
        rw [heq] at hh
        exact absurd hh (by decide)
      show from_tokens (fuel + 1) (.Item _ :: rest) = _
      simp only [from_tokens, if_neg hq]
      rw [atomize_good_str s]
  | .Bool true, _, fuel, rest, hf => by
    match fuel, hf with
    | fuel + 1, _ =>
      show from_tokens (fuel + 1) (.Item "#t" :: rest) = _
      simp only [from_tokens, if_neg (by decide : ¬("#t" : String) = "'")]
      rfl
  | .Bool false, _, fuel, rest, hf => by
    match fuel, hf with
    | fuel + 1, _ =>
      show from_tokens (fuel + 1) (.Item "#f" :: rest) = _
      simp only [from_tokens, if_neg (by decide : ¬("#f" : String) = "'")]
      rfl
  | .Nil, _, fuel, rest, hf => by
    match fuel, hf with
    | fuel + 1, _ =>
      show from_tokens (fuel + 1) (.Item "nil" :: rest) = _
      simp only [from_tokens, if_neg (by decide : ¬("nil" : String) = "'")]
      rfl
  | .List l, hg, fuel, rest, hf => by
    have hg2 : goodList l = true := by simpa [isGood] using hg
    simp only [tokensOf, List.length_cons, List.length_append] at hf
    match fuel, hf with
    | fuel + 1, hf =>
      show from_tokens (fuel + 1)
        (.LeftParen :: ((tokensOfList l ++ [.RightParen]) ++ rest)) = _
      rw [show (tokensOfList l ++ [Token.RightParen]) ++ rest =
          tokensOfList l ++ (Token.RightParen :: rest) from by simp]
      simp only [from_tokens]
      rw [parse_tokensOfList l hg2 fuel rest [] (by simp at hf ⊢; omega)]
      simp
  | .Integer n, hg, fuel, rest, hf => by simp [isGood] at hg
  | .Float f, hg, fuel, rest, hf => by simp [isGood] at hg
  | .Proc p, hg, fuel, rest, hf => by simp [isGood] at hg

/-- The list-loop companion: a good element list's tokens followed by the
closing right paren parse back to the elements appended to the accumulator. -/
theorem parse_tokensOfList :
    ∀ (l : List Value), goodList l = true →
      ∀ (fuel : Nat) (rest : List Token) (acc : List Value),
        2 * (tokensOfList l).length + 2 ≤ fuel →
        parse_list fuel (tokensOfList l ++ (Token.RightParen :: rest)) acc =
          .ok (.List (acc ++ l)) rest
  | [], _, fuel, rest, acc, hf => by
    match fuel, hf with
    | fuel + 1, _ =>
      show parse_list (fuel + 1) (.RightParen :: rest) acc = _
      simp [parse_list]
  | v :: vs, hg, fuel, rest, acc, hf => by
    simp only [goodList, Bool.and_eq_true] at hg
    simp only [tokensOfList, List.length_append] at hf
    obtain ⟨t, ts', hshape, ht⟩ := tokensOf_shape v hg.1
    have hlen : 1 ≤ (tokensOf v).length := by rw [hshape]; simp
    match fuel, hf with
    | fuel + 1, hf =>
      rw [show tokensOfList (v :: vs) ++ (Token.RightParen :: rest) =
          tokensOf v ++ (tokensOfList vs ++ (Token.RightParen :: rest))
          from by simp [tokensOfList]]
      rw [hshape, List.cons_append]
      rw [parse_list_step fuel t (ts' ++ (tokensOfList vs ++
        (Token.RightParen :: rest))) acc ht]
      rw [show t :: (ts' ++ (tokensOfList vs ++ (Token.RightParen :: rest))) =
          (t :: ts') ++ (tokensOfList vs ++ (Token.RightParen :: rest))
          from rfl]
      rw [← hshape]
      have hrec := parse_tokensOfList vs hg.2 fuel rest (acc ++ [v])
        (by rw [hshape] at hf; simp only [List.length_cons] at hf; omega)
      rw [parse_tokensOf v hg.1 fuel _
        (by rw [hshape] at hf ⊢; simp only [List.length_cons] at hf ⊢; omega)]
      simp [hrec]
end

/-- C9's engine: for every value in the round-trippable class, `Value::new`
parses the serialized text back to the value itself. -/
theorem new_serialize (v : Value) (hg : isGood v = true) :
    Value.new (serialize v) = .ok v := by
  have htok := tokenize_serialize v hg
  obtain ⟨t, ts', hshape, _⟩ := tokensOf_shape v hg
  have hne : (tokensOf v).isEmpty = false := by
    rw [hshape]
    rfl
  have hbal := tokensOf_balanced v hg
  have hparse : from_tokens (2 * (tokensOf v).length + 2) (tokensOf v) =
      .ok v [] := by
    rw [show from_tokens (2 * (tokensOf v).length + 2) (tokensOf v) =
        from_tokens (2 * (tokensOf v).length + 2) (tokensOf v ++ []) from by simp]
    exact parse_tokensOf v hg _ [] (by omega)
  simp only [Value.new, htok]
  simp [hne, hbal, hparse]

/-- C9 (amended): serialization round-trips on the class `isGood` — `Bool`,
`Nil`, `Str`ings containing neither `"` nor `\`, `Symbol`s that are nonempty
runs of ordinary characters which are not the quote item, not float-shaped and
not `#t`/`#f`/`nil`, and `List`s of such values: parsing the serialized text
succeeds, and re-serializing the parse yields the same text.  (Unrestricted,
the claim fails; numeric atoms cannot round-trip at the value level because
the atomizer's numeric branch is broken — see C7.) -/
theorem claim_C9 (v : Value) (hg : isGood v = true) :
    ∃ w, Value.new (serialize v) = .ok w ∧ serialize w = serialize v :=
  ⟨v, new_serialize v hg, rfl⟩

/-- C9 witness: the round trip at a concrete nested value. -/
theorem claim_C9_witness :
    ∃ w, Value.new (serialize good_example) = .ok w ∧
      serialize w = serialize good_example :=
  claim_C9 good_example (by rfl)

/-- C9 counterexample: a `Str` holding one double-quote character serializes
to `"""`, which re-parses as the empty string `Str ""` — re-serializing yields
`""`, not `"""`, refuting the unrestricted claim. -/
theorem claim_C9_cex :
    Value.new (serialize (.Str "\"")) = .ok (.Str "") ∧
    serialize (.Str "") ≠ serialize (.Str "\"") :=
  ⟨rfl, by decide⟩
